import Mathlib

/-
Verification development for the NEMT routing-simulation engine in
`src/routing_simulation.py`: the three assignment strategies
(`assign_fcfs`, `assign_nearest`, `assign_capacity_aware`), the per-driver
execution simulator (`simulate_strategy`) and the comparison orchestrator
(`run_simulation_comparison`).

Embedding conventions:
- Timestamps are exact rational minutes since an epoch; one calendar day is
  1440 minutes, so `.date()` becomes the floor of `t / 1440`.
- `datetime.min` (the sentinel meaning "driver has never been booked") is
  embedded as `⊥` in `WithBot ℚ`, which is below every timestamp.
- A possibly-NaN `trip_duration_minutes` is `Option ℚ` (`none` for NaN).
- Python `dict`s keyed by driver id are association lists in insertion
  order; driver ids are natural numbers (`DRV_0000` ↦ 0, ...).
- The haversine distance is an uninterpreted parameter `dist`: its
  trigonometric formula lives in `utils.py` and none of the checked
  properties depend on its values.
- `np.random` is modelled as a deterministic value stream `g : ℕ → ℕ → ℚ`
  indexed by (seed, position), with explicit state `RNGState`;
  `np.random.seed s` resets the state to `(s, 0)` and each draw consumes
  one position.  Only the seeded-stream discipline matters to the claims,
  not the shape of the distributions.
- Python code that can raise (`min` of an empty sequence, `KeyError`,
  `iloc[0]` / merge on an empty frame, `timedelta(minutes=NaN)`) is
  embedded in `Except String`.
-/

namespace RoutingSim

/-- A trip record as consumed by the routing engine (one dataframe row). -/
structure Trip where
  trip_id : ℕ
  requested_pickup_time : ℚ
  scheduled_pickup_time : ℚ
  pickup_lat : ℚ
  pickup_lng : ℚ
  dropoff_lat : ℚ
  dropoff_lng : ℚ
  distance_miles : ℚ
  trip_duration_minutes : Option ℚ
  num_passengers : ℕ
  is_cancelled : Bool
deriving DecidableEq, Repr

/-- One row of an assignment table: trip, driver, strategy name. -/
structure Assignment where
  trip_id : ℕ
  assigned_driver : ℕ
  strategy : String
deriving DecidableEq, Repr

/-- Results from a routing simulation run (`SimulationResult` dataclass). -/
structure SimulationResult where
  strategy_name : String
  total_trips : ℕ
  on_time_rate : ℚ
  total_miles : ℚ
  avg_trip_duration : ℚ
  avg_idle_time : ℚ
  utilization_rate : ℚ
deriving DecidableEq, Repr

/-- Driver availability map `driver_available_at`; `⊥` plays `datetime.min`. -/
abbrev AvailMap := List (ℕ × WithBot ℚ)

/-- Driver location map (`initial_locations` / `driver_locations`). -/
abbrev LocMap := List (ℕ × (ℚ × ℚ))

/-- Driver capacity map (`driver_capacities`). -/
abbrev CapMap := List (ℕ × ℕ)

/-- Uninterpreted great-circle distance between two coordinate pairs. -/
abbrev DistFn := ℚ × ℚ → ℚ × ℚ → ℚ

/-- Python `min(xs, key=f)`: left fold keeping the first element whose key is
minimal (later elements replace the current best only on a strict decrease). -/
def pickMinBy {α K : Type*} [LinearOrder K] (f : α → K) : List α → Option α
  | [] => none
  | x :: xs => some (xs.foldl (fun best y => if f y < f best then y else best) x)

/-- Python dict lookup `m[d]`, `none` on a missing key (`KeyError`). -/
def lookup? {β : Type*} (m : List (ℕ × β)) (d : ℕ) : Option β :=
  (m.find? (fun p => p.1 == d)).map Prod.snd

/-- Python dict assignment `m[d] = v` for a key already present. -/
def setKey {β : Type*} (m : List (ℕ × β)) (d : ℕ) (v : β) : List (ℕ × β) :=
  m.map (fun p => if p.1 = d then (d, v) else p)

/-- Sort trips by a rational key, as `trips.sort_values(column)` does. -/
def sortTripsBy (key : Trip → ℚ) (trips : List Trip) : List Trip :=
  List.insertionSort (fun a b => key a ≤ key b) trips

/-- The initial availability map `{d: datetime.min for d in drivers}`. -/
def initAvail (drivers : List ℕ) : AvailMap :=
  drivers.map (fun d => (d, (⊥ : WithBot ℚ)))

/-- Drivers whose `available_at ≤ scheduled_pickup_time`, in map order. -/
def availableDrivers (st : AvailMap) (sched : ℚ) : List ℕ :=
  (st.filter (fun p => decide (p.2 ≤ (sched : WithBot ℚ)))).map Prod.fst

/-- When a driver becomes free again:
`scheduled_pickup_time + timedelta(minutes=trip_duration + 10)` with the
missing-duration default of 30 minutes, shared by all three strategies. -/
def finishTime (t : Trip) : ℚ :=
  t.scheduled_pickup_time + (t.trip_duration_minutes.getD 30 + 10)

/-- One FCFS assignment step: take the first available driver, else the one
freeing soonest (`min(driver_available_at, key=driver_available_at.get)`,
which raises on an empty driver pool). -/
def fcfsStep (st : AvailMap) (t : Trip) : Except String (Assignment × AvailMap) :=
  let chosen? := match availableDrivers st t.scheduled_pickup_time with
    | [] => (pickMinBy (fun p => p.2) st).map Prod.fst
    | d :: _ => some d
  match chosen? with
  | none => .error ("min arg is an empty sequence")
  | some d => .ok (⟨t.trip_id, d, "FCFS"⟩, setKey st d (finishTime t))

/-- Fold one assignment step over a trip list, threading the strategy state. -/
def assignLoop {σ : Type*} (step : σ → Trip → Except String (Assignment × σ)) :
    σ → List Trip → Except String (List Assignment × σ)
  | st, [] => .ok ([], st)
  | st, t :: ts =>
    match step st t with
    | .error e => .error e
    | .ok (a, st') =>
      match assignLoop step st' ts with
      | .error e => .error e
      | .ok (l, st'') => .ok (a :: l, st'')

/-- First-Come-First-Served assignment strategy (`assign_fcfs`): trips in
requested order, first available driver, soonest-free fallback. -/
def assignFcfs (trips : List Trip) (drivers : List ℕ) :
    Except String (List Assignment) :=
  (assignLoop fcfsStep (initAvail drivers)
      (sortTripsBy (·.requested_pickup_time) trips)).map Prod.fst

/-- Candidate pool for the nearest and capacity-aware strategies: the
available drivers, or the whole pool when all are busy. -/
def candidatePool (st : AvailMap) (drivers : List ℕ) (sched : ℚ) : List ℕ :=
  let a := availableDrivers st sched
  if a.isEmpty then drivers else a

/-- Left-to-right effectful map over `Option`, as a Python comprehension
that may raise `KeyError` at any element. -/
def mapOption {α β : Type*} (f : α → Option β) : List α → Option (List β)
  | [] => some []
  | x :: xs =>
    match f x with
    | none => none
    | some y =>
      match mapOption f xs with
      | none => none
      | some ys => some (y :: ys)

/-- One nearest-driver assignment step: among the candidate pool, pick the
driver minimising distance from its current location to the pickup point,
then move that driver to the dropoff and mark it busy. -/
def nearestStep (dist : DistFn) (drivers : List ℕ) :
    AvailMap × LocMap → Trip → Except String (Assignment × (AvailMap × LocMap))
  | (st, locs), t =>
    let cands := candidatePool st drivers t.scheduled_pickup_time
    match mapOption
        (fun d => (lookup? locs d).map
          (fun loc => (d, dist loc (t.pickup_lat, t.pickup_lng)))) cands with
    | none => .error ("KeyError")
    | some ds =>
      match pickMinBy (fun p => p.2) ds with
      | none => .error ("min arg is an empty sequence")
      | some p =>
        .ok (⟨t.trip_id, p.1, "Nearest"⟩,
             (setKey st p.1 (finishTime t),
              setKey locs p.1 (t.dropoff_lat, t.dropoff_lng)))

/-- Nearest-driver assignment strategy (`assign_nearest`): trips in scheduled
order.  The returned `LocMap` is the in-place mutation the Python function
performs on its `driver_locations` argument. -/
def assignNearest (dist : DistFn) (trips : List Trip) (drivers : List ℕ)
    (locs : LocMap) : Except String (List Assignment × LocMap) :=
  (assignLoop (nearestStep dist drivers) (initAvail drivers, locs)
      (sortTripsBy (·.scheduled_pickup_time) trips)).map (fun r => (r.1, r.2.2))

/-- The `capacity_score` closure: a large penalty for too-small vehicles,
otherwise the excess capacity. -/
def capacityScore (passengers cap : ℕ) : ℕ :=
  if cap < passengers then 1000 else cap - passengers

/-- One capacity-aware assignment step: minimise `capacity_score` over the
candidate pool (`min(available_drivers, key=capacity_score)`). -/
def capacityStep (caps : CapMap) (drivers : List ℕ) (st : AvailMap) (t : Trip) :
    Except String (Assignment × AvailMap) :=
  let cands := candidatePool st drivers t.scheduled_pickup_time
  match mapOption
      (fun d => (lookup? caps d).map
        (fun c => (d, capacityScore t.num_passengers c))) cands with
  | none => .error ("KeyError")
  | some ds =>
    match pickMinBy (fun p => p.2) ds with
    | none => .error ("min arg is an empty sequence")
    | some p => .ok (⟨t.trip_id, p.1, "Capacity-Aware"⟩, setKey st p.1 (finishTime t))

/-- Capacity-aware assignment strategy (`assign_capacity_aware`). -/
def assignCapacityAware (trips : List Trip) (drivers : List ℕ) (caps : CapMap) :
    Except String (List Assignment) :=
  (assignLoop (capacityStep caps drivers) (initAvail drivers)
      (sortTripsBy (·.scheduled_pickup_time) trips)).map Prod.fst

/-- The configured global seed (`config.RANDOM_SEED`). -/
def RANDOM_SEED : ℕ := 42

/-- State of the global `np.random` generator: seed plus stream position. -/
structure RNGState where
  seed : ℕ
  idx : ℕ
deriving DecidableEq, Repr

/-- The abstract deterministic value stream behind `np.random`. -/
abbrev RandStream := ℕ → ℕ → ℚ

/-- `set_seed` / `np.random.seed`: reset the stream position. -/
def setSeed (s : ℕ) : RNGState := ⟨s, 0⟩

/-- One draw of `np.random.normal(mu, sigma)`, modelled as
`mu + sigma * g seed idx`; consumes one stream position. -/
def drawNormal (g : RandStream) (mu sigma : ℚ) (st : RNGState) : ℚ × RNGState :=
  (mu + sigma * g st.seed st.idx, ⟨st.seed, st.idx + 1⟩)

/-- One draw of `np.random.uniform(lo, hi)`; consumes one stream position. -/
def drawUniform (g : RandStream) (lo hi : ℚ) (st : RNGState) : ℚ × RNGState :=
  (lo + (hi - lo) * g st.seed st.idx, ⟨st.seed, st.idx + 1⟩)

/-- Computable floor of a rational (`⌊q⌋`). -/
def floorQ (q : ℚ) : ℤ := q.num / q.den

/-- One draw of `np.random.choice(xs)`: the draw selects an index. -/
def drawChoice (g : RandStream) (xs : List ℕ) (st : RNGState) : ℕ × RNGState :=
  (xs.getD ((floorQ (g st.seed st.idx)).toNat % xs.length) 0, ⟨st.seed, st.idx + 1⟩)

/-- Calendar date (day index) of a timestamp, i.e. `.date()`. -/
def timeDate (t : ℚ) : ℤ := floorQ (t / 1440)

/-- `t.replace(hour=6, minute=0, second=0, microsecond=0)`: 06:00 on `t`'s day. -/
def sixAMOf (t : ℚ) : ℚ := (timeDate t : ℚ) * 1440 + 360

/-- Per-day driver start rule: one hour before the trip or 06:00 of the
trip's day, whichever is later. -/
def dayStartTime (sched : ℚ) : ℚ := max (sched - 60) (sixAMOf sched)

/-- Per-trip observations accumulated by the execution simulator. -/
structure TripObs where
  miles : ℚ
  idle : ℚ
  delay : ℚ
  util : ℚ
  dur : ℚ
deriving DecidableEq, Repr

/-- Mutable per-driver simulation state: current location and time. -/
structure DriverSimState where
  loc : ℚ × ℚ
  time : ℚ
deriving DecidableEq, Repr

/-- Deadhead travel minutes from a location to a pickup, including the
optional multiplicative `normal(1.0, 0.1)` noise draw. -/
def deadheadMinutes (dist : DistFn) (speed : ℚ) (addNoise : Bool) (g : RandStream)
    (loc pickup : ℚ × ℚ) (rng : RNGState) : ℚ × RNGState :=
  let base := dist loc pickup / speed * 60
  if addNoise then
    let f := drawNormal g 1 (1 / 10) rng
    (base * f.1, f.2)
  else (base, rng)

/-- The per-trip transition of `simulate_strategy`: day-boundary reset,
deadhead travel, pickup timing, trip execution, state update.  Fails like
`timedelta(minutes=NaN)` when the trip duration is missing. -/
def tripStep (dist : DistFn) (speed : ℚ) (addNoise : Bool) (cap : ℕ)
    (g : RandStream) (st : DriverSimState) (rng : RNGState) (t : Trip) :
    Except String (TripObs × DriverSimState × RNGState) :=
  let cur := if timeDate st.time < timeDate t.scheduled_pickup_time
             then dayStartTime t.scheduled_pickup_time else st.time
  let dhMiles := dist st.loc (t.pickup_lat, t.pickup_lng)
  let dh := deadheadMinutes dist speed addNoise g st.loc
      (t.pickup_lat, t.pickup_lng) rng
  let arrival := cur + dh.1
  let actualPickup := max arrival t.scheduled_pickup_time
  match t.trip_duration_minutes with
  | none => .error ("cannot convert float NaN to integer")
  | some d0 =>
    let dur := if addNoise then
        let f := drawNormal g 1 (1 / 20) dh.2
        (d0 * f.1, f.2)
      else (d0, dh.2)
    .ok (⟨dhMiles + t.distance_miles, actualPickup - arrival,
          actualPickup - t.scheduled_pickup_time,
          (t.num_passengers : ℚ) / (cap : ℚ), dur.1⟩,
         ⟨(t.dropoff_lat, t.dropoff_lng), actualPickup + dur.1⟩, dur.2)

/-- Replay one driver's trips in order, threading state and RNG. -/
def simDriver (dist : DistFn) (speed : ℚ) (addNoise : Bool) (cap : ℕ)
    (g : RandStream) :
    DriverSimState → RNGState → List Trip → Except String (List TripObs × RNGState)
  | _, rng, [] => .ok ([], rng)
  | st, rng, t :: ts =>
    match tripStep dist speed addNoise cap g st rng t with
    | .error e => .error e
    | .ok (o, st', rng') =>
      match simDriver dist speed addNoise cap g st' rng' ts with
      | .error e => .error e
      | .ok (l, rng'') => .ok (o :: l, rng'')

/-- `trips.merge(assignments, on="trip_id")`: inner join in left order. -/
def mergeTrips (trips : List Trip) (assignments : List Assignment) :
    List (Trip × Assignment) :=
  trips.flatMap (fun t =>
    (assignments.filter (fun a => a.trip_id == t.trip_id)).map (fun a => (t, a)))

/-- Keys of `groupby("assigned_driver")`: distinct drivers, ascending. -/
def groupKeys (active : List (Trip × Assignment)) : List ℕ :=
  List.insertionSort (fun a b => a ≤ b)
    (active.map (fun p => p.2.assigned_driver)).dedup

/-- The trips of one driver's group, in the merged order. -/
def groupOf (active : List (Trip × Assignment)) (d : ℕ) : List Trip :=
  (active.filter (fun p => p.2.assigned_driver == d)).map Prod.fst

/-- Simulate one driver's day: sort the group by scheduled pickup, look up
the driver's initial location and capacity, start at the per-day start rule
anchored to the first trip, replay the trips. -/
def simGroup (dist : DistFn) (speed : ℚ) (addNoise : Bool) (g : RandStream)
    (locs : LocMap) (caps : CapMap) (d : ℕ) (grp : List Trip) (rng : RNGState) :
    Except String (List TripObs × RNGState) :=
  match sortTripsBy (·.scheduled_pickup_time) grp with
  | [] => .ok ([], rng)
  | t0 :: rest =>
    match lookup? locs d, lookup? caps d with
    | none, _ => .error ("KeyError")
    | _, none => .error ("KeyError")
    | some loc0, some cap =>
      simDriver dist speed addNoise cap g
        ⟨loc0, dayStartTime t0.scheduled_pickup_time⟩ rng (t0 :: rest)

/-- Process each driver's day in group-key order, concatenating observations. -/
def simGroups (dist : DistFn) (speed : ℚ) (addNoise : Bool) (g : RandStream)
    (locs : LocMap) (caps : CapMap) (active : List (Trip × Assignment)) :
    List ℕ → RNGState → Except String (List TripObs × RNGState)
  | [], rng => .ok ([], rng)
  | d :: ds, rng =>
    match simGroup dist speed addNoise g locs caps d (groupOf active d) rng with
    | .error e => .error e
    | .ok (o1, rng') =>
      match simGroups dist speed addNoise g locs caps active ds rng' with
      | .error e => .error e
      | .ok (o2, rng'') => .ok (o1 ++ o2, rng'')

/-- Arithmetic mean of a rational list (`np.mean`); `0` on the empty list
because `l.sum / 0 = 0` in `ℚ` (the code guards the empty case anyway). -/
def mean (l : List ℚ) : ℚ := l.sum / l.length

/-- `simulate_strategy`: reseed the global generator with the constant
`RANDOM_SEED`, join trips with assignments, drop cancelled trips, replay
each driver's day, aggregate.  The `_ambient` argument is the inherited
global RNG state, discarded by the initial `set_seed(RANDOM_SEED)`.
An empty assignment table fails like the Python merge / `iloc[0]`. -/
def simulateStrategy (g : RandStream) (dist : DistFn) (trips : List Trip)
    (assignments : List Assignment) (locs : LocMap) (caps : CapMap)
    (speed : ℚ) (addNoise : Bool) (_ambient : RNGState) :
    Except String SimulationResult :=
  let rng := setSeed RANDOM_SEED
  match assignments with
  | [] => .error ("KeyError trip_id")
  | a0 :: _ =>
    let active := (mergeTrips trips assignments).filter (fun p => !p.1.is_cancelled)
    match simGroups dist speed addNoise g locs caps active (groupKeys active) rng with
    | .error e => .error e
    | .ok (obs, _) =>
      let delays : List ℚ := obs.map (·.delay)
      let n : ℕ := active.length
      .ok { strategy_name := a0.strategy
            total_trips := n
            on_time_rate := if delays.isEmpty then 0
              else mean (delays.map (fun x => if x ≤ 10 then (1 : ℚ) else 0))
            total_miles := (obs.map (·.miles)).sum
            avg_trip_duration := if 0 < n then (obs.map (·.dur)).sum / (n : ℚ) else 0
            avg_idle_time := if 0 < n then (obs.map (·.idle)).sum / (n : ℚ) else 0
            utilization_rate := if (obs.map (·.util)).isEmpty then 0
              else mean (obs.map (·.util)) }

/-- Initial driver locations: two uniform draws per driver, in pool order. -/
def genLocations (g : RandStream) : List ℕ → RNGState → LocMap × RNGState
  | [], rng => ([], rng)
  | d :: ds, rng =>
    let la := drawUniform g (332 / 10) (337 / 10) rng
    let lo := drawUniform g (-1123 / 10) (-1118 / 10) la.2
    let rest := genLocations g ds lo.2
    ((d, (la.1, lo.1)) :: rest.1, rest.2)

/-- Driver capacities: one `np.random.choice([2, 4, 6])` draw per driver. -/
def genCapacities (g : RandStream) : List ℕ → RNGState → CapMap × RNGState
  | [], rng => ([], rng)
  | d :: ds, rng =>
    let c := drawChoice g [2, 4, 6] rng
    let rest := genCapacities g ds c.2
    ((d, c.1) :: rest.1, rest.2)

/-- `run_simulation_comparison`: seed with the argument, draw shared driver
attributes once, run FCFS, Nearest and Capacity-Aware in that fixed order.
`assign_nearest` receives `initial_locations.copy()`, so its location
mutation is discarded and every `simulate_strategy` call reads the original
`locs`.  `_ambient` is the inherited global RNG state, discarded by the
initial `set_seed(seed)`. -/
def runComparison (g : RandStream) (dist : DistFn) (trips : List Trip)
    (numDrivers : ℕ) (seed : ℕ) (_ambient : RNGState) :
    Except String (List SimulationResult) :=
  let st0 := setSeed seed
  let drivers := List.range numDrivers
  let gl := genLocations g drivers st0
  let locs := gl.1
  let gc := genCapacities g drivers gl.2
  let caps := gc.1
  match assignFcfs trips drivers with
  | .error e => .error e
  | .ok fcfsA =>
    match simulateStrategy g dist trips fcfsA locs caps 25 true gc.2 with
    | .error e => .error e
    | .ok r1 =>
      match assignNearest dist trips drivers locs with
      | .error e => .error e
      | .ok nearA =>
        match simulateStrategy g dist trips nearA.1 locs caps 25 true gc.2 with
        | .error e => .error e
        | .ok r2 =>
          match assignCapacityAware trips drivers caps with
          | .error e => .error e
          | .ok capA =>
            match simulateStrategy g dist trips capA locs caps 25 true gc.2 with
            | .error e => .error e
            | .ok r3 => .ok [r1, r2, r3]

/-- The `dict.copy()` made for each strategy in the spec-mandated calling
convention: a fresh list with the same bindings. -/
def privateCopy {β : Type*} (m : List (ℕ × β)) : List (ℕ × β) :=
  m.foldr (fun p acc => p :: acc) []

/-- Modelled from the spec: the comparison orchestrator as the spec words
it — driver attributes drawn once, then every strategy invocation and every
simulation receives its own strategy-private copy of the initial attribute
maps, never a shared mutable structure (spec sections 5 and 9). -/
def runComparisonSpec (g : RandStream) (dist : DistFn) (trips : List Trip)
    (numDrivers : ℕ) (seed : ℕ) (_ambient : RNGState) :
    Except String (List SimulationResult) :=
  let st0 := setSeed seed
  let drivers := List.range numDrivers
  let gl := genLocations g drivers st0
  let gc := genCapacities g drivers gl.2
  match assignFcfs trips drivers with
  | .error e => .error e
  | .ok fcfsA =>
    match simulateStrategy g dist trips fcfsA (privateCopy gl.1)
        (privateCopy gc.1) 25 true gc.2 with
    | .error e => .error e
    | .ok r1 =>
      match assignNearest dist trips drivers (privateCopy gl.1) with
      | .error e => .error e
      | .ok nearA =>
        match simulateStrategy g dist trips nearA.1 (privateCopy gl.1)
            (privateCopy gc.1) 25 true gc.2 with
        | .error e => .error e
        | .ok r2 =>
          match assignCapacityAware trips drivers (privateCopy gc.1) with
          | .error e => .error e
          | .ok capA =>
            match simulateStrategy g dist trips capA (privateCopy gl.1)
                (privateCopy gc.1) 25 true gc.2 with
            | .error e => .error e
            | .ok r3 => .ok [r1, r2, r3]

/-! Concrete sample data for closed-form evaluations (times in minutes:
480 = 08:00 of day 0, 485 = 08:05, 600 = 10:00; integral coordinates). -/

/-- A cancelled trip (day 0, 08:05, 2 passengers, 20-minute duration). -/
def tripCancelled : Trip := ⟨1, 480, 485, 33, -112, 34, -113, 5, some 20, 2, true⟩

/-- A plain active trip (day 0, 10:00, 1 passenger, 20-minute duration). -/
def tripBasic : Trip := ⟨2, 480, 600, 33, -112, 34, -113, 5, some 20, 1, false⟩

/-- An active trip with three passengers. -/
def tripThreePax : Trip := ⟨3, 480, 485, 33, -112, 34, -113, 5, some 20, 3, false⟩

/-- An active trip whose `trip_duration_minutes` is NaN. -/
def tripNoDur : Trip := ⟨4, 480, 600, 33, -112, 34, -113, 5, none, 1, false⟩

/-- An active trip on day 1 (10:00 of the next calendar day). -/
def tripDayTwo : Trip := ⟨5, 2040, 2040, 33, -112, 34, -113, 5, some 20, 1, false⟩

/-- The all-zeroes random stream. -/
def zeroStream : RandStream := fun _ _ => 0

/-- A distance function that is identically zero. -/
def zeroDist : DistFn := fun _ _ => 0

/-- A distance function that is identically 25 miles (one hour at 25 mph). -/
def constDist25 : DistFn := fun _ _ => 25

/-- A stream that yields 10 on the configured `RANDOM_SEED` and 0 on every
other seed. -/
def noisyStream : RandStream := fun s _ => if s = RANDOM_SEED then 10 else 0

/-- A stream that is zero on the configured `RANDOM_SEED` and on seed 43,
and nonzero elsewhere. -/
def offSeedStream : RandStream := fun s i =>
  if s = RANDOM_SEED ∨ s = 43 then 0 else 7 + i

/-! Generic helper lemmas about the embedded container operations. -/

/-- The Python `min(..., key=f)` fold returns an element of the scanned
collection whose key is minimal. -/
theorem foldlMin_spec {α K : Type*} [LinearOrder K] (f : α → K) :
    ∀ (xs : List α) (x : α),
      (xs.foldl (fun best y => if f y < f best then y else best) x = x ∨
        xs.foldl (fun best y => if f y < f best then y else best) x ∈ xs) ∧
      f (xs.foldl (fun best y => if f y < f best then y else best) x) ≤ f x ∧
      ∀ y ∈ xs, f (xs.foldl (fun best y => if f y < f best then y else best) x) ≤ f y := by
  intro xs
  induction xs with
  | nil => intro x; refine ⟨Or.inl rfl, le_refl _, ?_⟩; intro y hy; cases hy
  | cons y ys ih =>
    intro x
    simp only [List.foldl_cons]
    by_cases hc : f y < f x
    · rw [if_pos hc]
      rcases ih y with ⟨hmem, hle, hall⟩
      refine ⟨?_, le_trans hle (le_of_lt hc), ?_⟩
      · rcases hmem with h | h
        · exact Or.inr (by rw [h]; exact List.mem_cons_self y ys)
        · exact Or.inr (List.mem_cons_of_mem y h)
      · intro z hz
        rcases List.mem_cons.mp hz with hz | hz
        · exact hz ▸ hle
        · exact hall z hz
    · rw [if_neg hc]
      rcases ih x with ⟨hmem, hle, hall⟩
      refine ⟨?_, hle, ?_⟩
      · rcases hmem with h | h
        · exact Or.inl h
        · exact Or.inr (List.mem_cons_of_mem y h)
      · intro z hz
        rcases List.mem_cons.mp hz with hz | hz
        · exact hz ▸ le_trans hle (le_of_not_lt hc)
        · exact hall z hz

/-- A successful `pickMinBy` yields a member of the list with minimal key. -/
theorem pickMinBy_spec {α K : Type*} [LinearOrder K] (f : α → K) {l : List α}
    {x : α} (h : pickMinBy f l = some x) : x ∈ l ∧ ∀ y ∈ l, f x ≤ f y := by
  cases l with
  | nil => cases h
  | cons a as =>
    simp only [pickMinBy, Option.some.injEq] at h
    rcases foldlMin_spec f as a with ⟨hmem, hle, hall⟩
    rw [h] at hmem hle hall
    refine ⟨?_, ?_⟩
    · rcases hmem with h' | h'
      · exact h' ▸ List.mem_cons_self a as
      · exact List.mem_cons_of_mem a h'
    · intro y hy
      rcases List.mem_cons.mp hy with hy | hy
      · exact hy ▸ hle
      · exact hall y hy

/-- `pickMinBy` succeeds exactly on nonempty lists. -/
theorem pickMinBy_eq_some {α K : Type*} [LinearOrder K] (f : α → K) {l : List α}
    (h : l ≠ []) : ∃ x, pickMinBy f l = some x := by
  cases l with
  | nil => exact absurd rfl h
  | cons a as => exact ⟨_, rfl⟩

/-- Rewriting a value keeps the key column of a driver map unchanged. -/
theorem setKey_keys {β : Type*} (m : List (ℕ × β)) (d : ℕ) (v : β) :
    (setKey m d v).map Prod.fst = m.map Prod.fst := by
  unfold setKey
  rw [List.map_map]
  refine List.map_congr_left ?_
  intro p _
  by_cases h : p.1 = d
  · simp [h]
  · simp [h]

/-- Rewriting a value does not change which keys a lookup finds. -/
theorem lookup?_setKey_isSome {β : Type*} (m : List (ℕ × β)) (k : ℕ) (v : β)
    (d : ℕ) : (lookup? (setKey m k v) d).isSome = (lookup? m d).isSome := by
  unfold lookup? setKey
  rw [List.find?_map]
  have hpred : ((fun p : ℕ × β => p.1 == d) ∘
      fun p : ℕ × β => if p.1 = k then (k, v) else p) = fun p : ℕ × β => p.1 == d := by
    funext p
    by_cases h : p.1 = k
    · simp [h]
    · simp [h]
  rw [hpred]
  cases m.find? (fun p : ℕ × β => p.1 == d) <;> rfl

/-- The available drivers all come from the availability map's key column. -/
theorem availableDrivers_subset (st : AvailMap) (sched : ℚ) :
    availableDrivers st sched ⊆ st.map Prod.fst := by
  unfold availableDrivers
  exact List.map_subset Prod.fst (List.filter_subset' st)

/-- The candidate pool of the nearest and capacity-aware strategies is
always drawn from the driver pool. -/
theorem candidatePool_subset (st : AvailMap) (drivers : List ℕ) (sched : ℚ)
    (hkeys : st.map Prod.fst = drivers) :
    candidatePool st drivers sched ⊆ drivers := by
  unfold candidatePool
  by_cases h : (availableDrivers st sched).isEmpty
  · simp only [h, if_pos]; exact fun d hd => hd
  · simp only [h, if_neg, Bool.false_eq_true, not_false_iff]
    exact hkeys ▸ availableDrivers_subset st sched

/-- With a nonempty driver pool the candidate pool is nonempty. -/
theorem candidatePool_ne_nil (st : AvailMap) (drivers : List ℕ) (sched : ℚ)
    (hd : drivers ≠ []) : candidatePool st drivers sched ≠ [] := by
  unfold candidatePool
  by_cases h : (availableDrivers st sched).isEmpty
  · simpa [h] using hd
  · simpa [h] using (List.isEmpty_iff).not.mp (by simp [h])

/-- A comprehension over keys that all resolve succeeds and produces values
in one-to-one correspondence with the scanned keys. -/
theorem mapOption_eq_some {α β : Type*} (f : α → Option β) :
    ∀ {l : List α}, (∀ x ∈ l, (f x).isSome) →
      ∃ r, mapOption f l = some r ∧ r.length = l.length ∧
        ∀ y ∈ r, ∃ x ∈ l, f x = some y := by
  intro l
  induction l with
  | nil => intro _; exact ⟨[], rfl, rfl, by simp⟩
  | cons x xs ih =>
    intro h
    have hx : (f x).isSome := h x (List.mem_cons_self x xs)
    rcases Option.isSome_iff_exists.mp hx with ⟨y, hy⟩
    rcases ih (fun z hz => h z (List.mem_cons_of_mem x hz)) with ⟨r, hr, hlen, hmem⟩
    refine ⟨y :: r, ?_, by simp [hlen], ?_⟩
    · simp only [mapOption, hy, hr]
    · intro z hz
      rcases List.mem_cons.mp hz with hz | hz
      · exact ⟨x, List.mem_cons_self x xs, hz ▸ hy⟩
      · rcases hmem z hz with ⟨w, hw, hfw⟩
        exact ⟨w, List.mem_cons_of_mem x hw, hfw⟩

/-- Sorting trips is a permutation (the source's `sort_values`). -/
theorem sortTripsBy_perm (key : Trip → ℚ) (trips : List Trip) :
    (sortTripsBy key trips).Perm trips :=
  List.perm_insertionSort _ trips

/-- The key column of the freshly initialised availability map. -/
theorem initAvail_keys (drivers : List ℕ) :
    (initAvail drivers).map Prod.fst = drivers := by
  induction drivers with
  | nil => rfl
  | cons d ds ih => simp only [initAvail, List.map_cons] at ih ⊢; rw [ih]

/-! Success and shape of one step of each assignment strategy. -/

/-- An FCFS step on a map whose keys are the (nonempty) driver pool always
succeeds, assigns the processed trip to a pool member, and preserves the
key column. -/
theorem fcfsStep_ok (st : AvailMap) (t : Trip) (drivers : List ℕ)
    (hkeys : st.map Prod.fst = drivers) (hd : drivers ≠ []) :
    ∃ a st', fcfsStep st t = .ok (a, st') ∧ a.trip_id = t.trip_id ∧
      a.assigned_driver ∈ drivers ∧ a.strategy = "FCFS" ∧
      st'.map Prod.fst = drivers := by
  have hstne : st ≠ [] := by
    intro h
    exact hd (by rw [← hkeys, h]; rfl)
  cases havail : availableDrivers st t.scheduled_pickup_time with
  | nil =>
    rcases pickMinBy_eq_some (fun p : ℕ × WithBot ℚ => p.2) hstne with ⟨p, hp⟩
    have hpmem := (pickMinBy_spec _ hp).1
    refine ⟨⟨t.trip_id, p.1, "FCFS"⟩, setKey st p.1 (finishTime t), ?_, rfl, ?_, rfl,
      (setKey_keys st p.1 (finishTime t)).trans hkeys⟩
    · simp only [fcfsStep, havail, hp, Option.map_some']
    · exact hkeys ▸ List.mem_map_of_mem Prod.fst hpmem
  | cons d rest =>
    have hdmem : d ∈ availableDrivers st t.scheduled_pickup_time := by
      rw [havail]; exact List.mem_cons_self d rest
    refine ⟨⟨t.trip_id, d, "FCFS"⟩, setKey st d (finishTime t), ?_, rfl, ?_, rfl,
      (setKey_keys st d (finishTime t)).trans hkeys⟩
    · simp only [fcfsStep, havail]
    · exact hkeys ▸ availableDrivers_subset st t.scheduled_pickup_time hdmem

/-- A nearest-driver step succeeds whenever the pool is nonempty and every
pool member has a location; it preserves both invariants. -/
theorem nearestStep_ok (dist : DistFn) (drivers : List ℕ) (st : AvailMap)
    (locs : LocMap) (t : Trip) (hkeys : st.map Prod.fst = drivers)
    (hlocs : ∀ d ∈ drivers, (lookup? locs d).isSome) (hd : drivers ≠ []) :
    ∃ a st' locs', nearestStep dist drivers (st, locs) t = .ok (a, (st', locs')) ∧
      a.trip_id = t.trip_id ∧ a.assigned_driver ∈ drivers ∧ a.strategy = "Nearest" ∧
      st'.map Prod.fst = drivers ∧ ∀ d ∈ drivers, (lookup? locs' d).isSome := by
  have hsub := candidatePool_subset st drivers t.scheduled_pickup_time hkeys
  have hne := candidatePool_ne_nil st drivers t.scheduled_pickup_time hd
  have hsome : ∀ d ∈ candidatePool st drivers t.scheduled_pickup_time,
      ((lookup? locs d).map
        (fun loc => (d, dist loc (t.pickup_lat, t.pickup_lng)))).isSome := by
    intro d hdc
    have := hlocs d (hsub hdc)
    cases hl : lookup? locs d with
    | none => rw [hl] at this; cases this
    | some loc => rfl
  rcases mapOption_eq_some _ hsome with ⟨r, hr, hlen, hmem⟩
  have hrne : r ≠ [] := by
    intro h
    rw [h] at hlen
    exact hne (List.length_eq_zero.mp hlen.symm)
  rcases pickMinBy_eq_some (fun p : ℕ × ℚ => p.2) hrne with ⟨p, hp⟩
  have hpmem := (pickMinBy_spec _ hp).1
  rcases hmem p hpmem with ⟨x, hx, hfx⟩
  have hpx : p.1 = x := by
    cases hlk : lookup? locs x with
    | none => rw [hlk] at hfx; cases hfx
    | some loc =>
      rw [hlk] at hfx
      simp only [Option.map_some', Option.some.injEq] at hfx
      rw [← hfx]
  refine ⟨⟨t.trip_id, p.1, "Nearest"⟩, setKey st p.1 (finishTime t),
    setKey locs p.1 (t.dropoff_lat, t.dropoff_lng), ?_, rfl, ?_, rfl,
    (setKey_keys st p.1 (finishTime t)).trans hkeys, ?_⟩
  · simp only [nearestStep, hr, hp]
  · exact hpx ▸ hsub hx
  · intro d hdd
    rw [lookup?_setKey_isSome]
    exact hlocs d hdd

/-- A capacity-aware step succeeds whenever the pool is nonempty and every
pool member has a capacity; it preserves both invariants. -/
theorem capacityStep_ok (caps : CapMap) (drivers : List ℕ) (st : AvailMap)
    (t : Trip) (hkeys : st.map Prod.fst = drivers)
    (hcaps : ∀ d ∈ drivers, (lookup? caps d).isSome) (hd : drivers ≠ []) :
    ∃ a st', capacityStep caps drivers st t = .ok (a, st') ∧
      a.trip_id = t.trip_id ∧ a.assigned_driver ∈ drivers ∧
      a.strategy = "Capacity-Aware" ∧ st'.map Prod.fst = drivers := by
  have hsub := candidatePool_subset st drivers t.scheduled_pickup_time hkeys
  have hne := candidatePool_ne_nil st drivers t.scheduled_pickup_time hd
  have hsome : ∀ d ∈ candidatePool st drivers t.scheduled_pickup_time,
      ((lookup? caps d).map
        (fun c => (d, capacityScore t.num_passengers c))).isSome := by
    intro d hdc
    have := hcaps d (hsub hdc)
    cases hl : lookup? caps d with
    | none => rw [hl] at this; cases this
    | some c => rfl
  rcases mapOption_eq_some _ hsome with ⟨r, hr, hlen, hmem⟩
  have hrne : r ≠ [] := by
    intro h
    rw [h] at hlen
    exact hne (List.length_eq_zero.mp hlen.symm)
  rcases pickMinBy_eq_some (fun p : ℕ × ℕ => p.2) hrne with ⟨p, hp⟩
  have hpmem := (pickMinBy_spec _ hp).1
  rcases hmem p hpmem with ⟨x, hx, hfx⟩
  have hpx : p.1 = x := by
    cases hlk : lookup? caps x with
    | none => rw [hlk] at hfx; cases hfx
    | some c =>
      rw [hlk] at hfx
      simp only [Option.map_some', Option.some.injEq] at hfx
      rw [← hfx]
  refine ⟨⟨t.trip_id, p.1, "Capacity-Aware"⟩, setKey st p.1 (finishTime t), ?_,
    rfl, ?_, rfl, (setKey_keys st p.1 (finishTime t)).trans hkeys⟩
  · simp only [capacityStep, hr, hp]
  · exact hpx ▸ hsub hx

/-- Generic soundness of the assignment fold: a step that always succeeds and
preserves an invariant yields one assignment per processed trip, in order. -/
theorem assignLoop_spec {σ : Type*} (step : σ → Trip → Except String (Assignment × σ))
    (P : σ → Prop) (name : String) (drivers : List ℕ)
    (hstep : ∀ st t, P st → ∃ a st', step st t = .ok (a, st') ∧
      a.trip_id = t.trip_id ∧ a.assigned_driver ∈ drivers ∧
      a.strategy = name ∧ P st') :
    ∀ (ts : List Trip) (st : σ), P st →
      ∃ l st', assignLoop step st ts = .ok (l, st') ∧
        l.map (·.trip_id) = ts.map (·.trip_id) ∧
        (∀ a ∈ l, a.assigned_driver ∈ drivers ∧ a.strategy = name) ∧ P st' := by
  intro ts
  induction ts with
  | nil =>
    intro st hst
    exact ⟨[], st, rfl, rfl, by simp, hst⟩
  | cons t ts ih =>
    intro st hst
    rcases hstep st t hst with ⟨a, st', hok, hid, hdrv, hname, hst'⟩
    rcases ih st' hst' with ⟨l, st'', hok', hids, hall, hst''⟩
    refine ⟨a :: l, st'', ?_, ?_, ?_, hst''⟩
    · simp only [assignLoop, hok, hok']
    · simp [hid, hids]
    · intro b hb
      rcases List.mem_cons.mp hb with hb | hb
      · exact hb ▸ ⟨hdrv, hname⟩
      · exact hall b hb

/-- `assign_fcfs` on a nonempty driver pool: one assignment per input trip
(cancelled or not), all drivers from the pool. -/
theorem assignFcfs_spec (trips : List Trip) (drivers : List ℕ) (hd : drivers ≠ []) :
    ∃ l, assignFcfs trips drivers = .ok l ∧
      (l.map (·.trip_id)).Perm (trips.map (·.trip_id)) ∧
      l.length = trips.length ∧
      ∀ a ∈ l, a.assigned_driver ∈ drivers ∧ a.strategy = "FCFS" := by
  have hinit : (initAvail drivers).map Prod.fst = drivers := initAvail_keys drivers
  rcases assignLoop_spec fcfsStep (fun st => st.map Prod.fst = drivers) "FCFS" drivers
      (fun st t hst => fcfsStep_ok st t drivers hst hd)
      (sortTripsBy (·.requested_pickup_time) trips) (initAvail drivers) hinit with
    ⟨l, st', hok, hids, hall, _⟩
  have hperm : ((sortTripsBy (·.requested_pickup_time) trips).map
      (fun t : Trip => t.trip_id)).Perm (trips.map (·.trip_id)) :=
    (sortTripsBy_perm _ trips).map _
  refine ⟨l, ?_, hids ▸ hperm, ?_, hall⟩
  · unfold assignFcfs
    rw [hok]
    rfl
  · have h1 := congrArg List.length hids
    simp only [List.length_map] at h1
    exact h1.trans (sortTripsBy_perm (·.requested_pickup_time) trips).length_eq

/-- `assign_nearest` on a nonempty driver pool with a location per driver. -/
theorem assignNearest_spec (dist : DistFn) (trips : List Trip) (drivers : List ℕ)
    (locs : LocMap) (hd : drivers ≠ [])
    (hlocs : ∀ d ∈ drivers, (lookup? locs d).isSome) :
    ∃ l locs', assignNearest dist trips drivers locs = .ok (l, locs') ∧
      (l.map (·.trip_id)).Perm (trips.map (·.trip_id)) ∧
      l.length = trips.length ∧
      ∀ a ∈ l, a.assigned_driver ∈ drivers ∧ a.strategy = "Nearest" := by
  have hinit : (initAvail drivers).map Prod.fst = drivers := initAvail_keys drivers
  rcases assignLoop_spec (nearestStep dist drivers)
      (fun s : AvailMap × LocMap => s.1.map Prod.fst = drivers ∧
        ∀ d ∈ drivers, (lookup? s.2 d).isSome) "Nearest" drivers
      (fun s t hst => by
        rcases nearestStep_ok dist drivers s.1 s.2 t hst.1 hst.2 hd with
          ⟨a, st', locs', hok, hid, hdrv, hname, hk, hl⟩
        exact ⟨a, (st', locs'), by rw [← hok], hid, hdrv, hname, hk, hl⟩)
      (sortTripsBy (·.scheduled_pickup_time) trips) (initAvail drivers, locs)
      ⟨hinit, hlocs⟩ with ⟨l, st', hok, hids, hall, _⟩
  have hperm : ((sortTripsBy (·.scheduled_pickup_time) trips).map
      (fun t : Trip => t.trip_id)).Perm (trips.map (·.trip_id)) :=
    (sortTripsBy_perm _ trips).map _
  refine ⟨l, st'.2, ?_, hids ▸ hperm, ?_, hall⟩
  · unfold assignNearest
    rw [hok]
    rfl
  · have h1 := congrArg List.length hids
    simp only [List.length_map] at h1
    exact h1.trans (sortTripsBy_perm (·.scheduled_pickup_time) trips).length_eq

/-- `assign_capacity_aware` on a nonempty driver pool with a capacity per
driver. -/
theorem assignCapacityAware_spec (trips : List Trip) (drivers : List ℕ)
    (caps : CapMap) (hd : drivers ≠ [])
    (hcaps : ∀ d ∈ drivers, (lookup? caps d).isSome) :
    ∃ l, assignCapacityAware trips drivers caps = .ok l ∧
      (l.map (·.trip_id)).Perm (trips.map (·.trip_id)) ∧
      l.length = trips.length ∧
      ∀ a ∈ l, a.assigned_driver ∈ drivers ∧ a.strategy = "Capacity-Aware" := by
  have hinit : (initAvail drivers).map Prod.fst = drivers := initAvail_keys drivers
  rcases assignLoop_spec (capacityStep caps drivers)
      (fun st : AvailMap => st.map Prod.fst = drivers) "Capacity-Aware" drivers
      (fun st t hst => capacityStep_ok caps drivers st t hst hcaps hd)
      (sortTripsBy (·.scheduled_pickup_time) trips) (initAvail drivers) hinit with
    ⟨l, st', hok, hids, hall, _⟩
  have hperm : ((sortTripsBy (·.scheduled_pickup_time) trips).map
      (fun t : Trip => t.trip_id)).Perm (trips.map (·.trip_id)) :=
    (sortTripsBy_perm _ trips).map _
  refine ⟨l, ?_, hids ▸ hperm, ?_, hall⟩
  · unfold assignCapacityAware
    rw [hok]
    rfl
  · have h1 := congrArg List.length hids
    simp only [List.length_map] at h1
    exact h1.trans (sortTripsBy_perm (·.scheduled_pickup_time) trips).length_eq

/-- Values produced by a successful comprehension come from its keys. -/
theorem mapOption_some_mem {α β : Type*} (f : α → Option β) :
    ∀ {l : List α} {r : List β}, mapOption f l = some r →
      ∀ y ∈ r, ∃ x ∈ l, f x = some y := by
  intro l
  induction l with
  | nil =>
    intro r hr y hy
    simp only [mapOption, Option.some.injEq] at hr
    rw [← hr] at hy
    cases hy
  | cons x xs ih =>
    intro r hr y hy
    simp only [mapOption] at hr
    cases hfx : f x with
    | none => rw [hfx] at hr; cases hr
    | some z =>
      rw [hfx] at hr
      cases hrec : mapOption f xs with
      | none => rw [hrec] at hr; cases hr
      | some ys =>
        rw [hrec] at hr
        simp only [Option.some.injEq] at hr
        rw [← hr] at hy
        rcases List.mem_cons.mp hy with hy | hy
        · exact ⟨x, List.mem_cons_self x xs, hy ▸ hfx⟩
        · rcases ih hrec y hy with ⟨w, hw, hfw⟩
          exact ⟨w, List.mem_cons_of_mem x hw, hfw⟩

/-- Every key scanned by a successful comprehension contributes its value. -/
theorem mapOption_mem_of_mem {α β : Type*} (f : α → Option β) :
    ∀ {l : List α} {r : List β}, mapOption f l = some r →
      ∀ x ∈ l, ∀ y, f x = some y → y ∈ r := by
  intro l
  induction l with
  | nil =>
    intro r _ x hx
    cases hx
  | cons z zs ih =>
    intro r hr x hx y hfy
    simp only [mapOption] at hr
    cases hfz : f z with
    | none => rw [hfz] at hr; cases hr
    | some w =>
      rw [hfz] at hr
      cases hrec : mapOption f zs with
      | none => rw [hrec] at hr; cases hr
      | some ys =>
        rw [hrec] at hr
        simp only [Option.some.injEq] at hr
        rcases List.mem_cons.mp hx with hx | hx
        · rw [← hr]
          rw [hx] at hfy
          rw [hfy] at hfz
          cases hfz
          exact List.mem_cons_self y ys
        · rw [← hr]
          exact List.mem_cons_of_mem w (ih hrec x hx y hfy)

/-! The claims. -/

/-- C1 counterexample: the strategies do not restrict themselves to
non-cancelled trips — on a single cancelled trip, `assign_fcfs` still emits
one assignment while the non-cancelled trip count is zero, so the number of
assignments differs from the number of non-cancelled input trips. -/
theorem C1_counterexample_cancelled_trip_assigned :
    (assignFcfs [tripCancelled] [0]).toOption.map List.length = some 1 ∧
    ([tripCancelled].filter (fun t => !t.is_cancelled)).length = 0 := by
  constructor
  · rfl
  · rfl

/-- C1 (amended): with a nonempty driver pool — and a location (resp.
capacity) for every pool member where the strategy needs one — each of the
three strategies produces a table that assigns every input trip, cancelled
or not, exactly once (its trip ids are a permutation of ALL input trip ids,
so in particular every non-cancelled trip appears exactly once), and every
assigned driver belongs to the supplied pool; the number of assignments
equals the number of all input trips, not the number of non-cancelled ones
(cancelled trips are only dropped later, inside `simulate_strategy`). -/
theorem C1_each_strategy_assigns_every_input_trip_once (dist : DistFn)
    (trips : List Trip) (drivers : List ℕ) (locs : LocMap) (caps : CapMap)
    (hd : drivers ≠ [])
    (hlocs : ∀ d ∈ drivers, (lookup? locs d).isSome)
    (hcaps : ∀ d ∈ drivers, (lookup? caps d).isSome) :
    (∃ l, assignFcfs trips drivers = .ok l ∧
      (l.map (·.trip_id)).Perm (trips.map (·.trip_id)) ∧
      l.length = trips.length ∧ ∀ a ∈ l, a.assigned_driver ∈ drivers) ∧
    (∃ l locs', assignNearest dist trips drivers locs = .ok (l, locs') ∧
      (l.map (·.trip_id)).Perm (trips.map (·.trip_id)) ∧
      l.length = trips.length ∧ ∀ a ∈ l, a.assigned_driver ∈ drivers) ∧
    (∃ l, assignCapacityAware trips drivers caps = .ok l ∧
      (l.map (·.trip_id)).Perm (trips.map (·.trip_id)) ∧
      l.length = trips.length ∧ ∀ a ∈ l, a.assigned_driver ∈ drivers) := by
  refine ⟨?_, ?_, ?_⟩
  · rcases assignFcfs_spec trips drivers hd with ⟨l, hok, hperm, hlen, hall⟩
    exact ⟨l, hok, hperm, hlen, fun a ha => (hall a ha).1⟩
  · rcases assignNearest_spec dist trips drivers locs hd hlocs with
      ⟨l, locs', hok, hperm, hlen, hall⟩
    exact ⟨l, locs', hok, hperm, hlen, fun a ha => (hall a ha).1⟩
  · rcases assignCapacityAware_spec trips drivers caps hd hcaps with
      ⟨l, hok, hperm, hlen, hall⟩
    exact ⟨l, hok, hperm, hlen, fun a ha => (hall a ha).1⟩

/-- Witness instantiating C1's amended theorem on one trip and one driver. -/
theorem C1_each_strategy_assigns_every_input_trip_once_witness :
    ∃ l, assignFcfs [tripBasic] [0] = .ok l ∧ l.length = 1 := by
  rcases (C1_each_strategy_assigns_every_input_trip_once zeroDist [tripBasic] [0]
      [(0, (33, -112))] [(0, 2)] (by decide) (by decide) (by decide)).1 with
    ⟨l, hok, _, hlen, _⟩
  exact ⟨l, hok, hlen⟩

/-- C4: the capacity-aware step scores candidates with `capacityScore`
(1000 when capacity < passengers, excess capacity otherwise) and picks a
minimum-score candidate, so whenever some candidate has sufficient capacity
and all candidate capacities are below the 1000 penalty, the selected
driver's capacity is at least the passenger count. -/
theorem C4_capacity_aware_never_picks_too_small (caps : CapMap)
    (drivers : List ℕ) (st : AvailMap) (t : Trip) (a : Assignment)
    (st' : AvailMap) (hok : capacityStep caps drivers st t = .ok (a, st'))
    (hsuff : ∃ d ∈ candidatePool st drivers t.scheduled_pickup_time,
      ∃ c, lookup? caps d = some c ∧ t.num_passengers ≤ c)
    (hbelow : ∀ d ∈ candidatePool st drivers t.scheduled_pickup_time,
      ∀ c, lookup? caps d = some c → c < 1000) :
    ∃ c, lookup? caps a.assigned_driver = some c ∧ t.num_passengers ≤ c := by
  unfold capacityStep at hok
  dsimp only at hok
  cases hmo : mapOption (fun d => (lookup? caps d).map
      (fun c => (d, capacityScore t.num_passengers c)))
      (candidatePool st drivers t.scheduled_pickup_time) with
  | none => rw [hmo] at hok; exact Except.noConfusion hok
  | some r =>
    rw [hmo] at hok
    dsimp only at hok
    cases hpk : pickMinBy (fun p : ℕ × ℕ => p.2) r with
    | none => rw [hpk] at hok; exact Except.noConfusion hok
    | some p =>
      rw [hpk] at hok
      simp only [Except.ok.injEq, Prod.mk.injEq] at hok
      rcases mapOption_some_mem _ hmo p ((pickMinBy_spec _ hpk).1) with ⟨x, hx, hfx⟩
      cases hlx : lookup? caps x with
      | none => rw [hlx] at hfx; cases hfx
      | some cx =>
        rw [hlx] at hfx
        simp only [Option.map_some', Option.some.injEq] at hfx
        rcases hsuff with ⟨d, hdc, c, hlc, hcap⟩
        have hdr : (d, capacityScore t.num_passengers c) ∈ r :=
          mapOption_mem_of_mem _ hmo d hdc _ (by rw [hlc]; rfl)
        have hmin := (pickMinBy_spec _ hpk).2 _ hdr
        have hscore_d : capacityScore t.num_passengers c < 1000 := by
          unfold capacityScore
          rw [if_neg (not_lt.mpr hcap)]
          exact lt_of_le_of_lt (Nat.sub_le c t.num_passengers) (hbelow d hdc c hlc)
        have hp2 : p.2 = capacityScore t.num_passengers cx := by rw [← hfx]
        have hlt : capacityScore t.num_passengers cx < 1000 := by
          rw [← hp2]
          exact lt_of_le_of_lt hmin hscore_d
        have hge : t.num_passengers ≤ cx := by
          by_contra hcon
          unfold capacityScore at hlt
          rw [if_pos (not_le.mp hcon)] at hlt
          exact lt_irrefl 1000 hlt
        have hpa : a.assigned_driver = p.1 := by rw [← hok.1]
        have hp1 : p.1 = x := by rw [← hfx]
        rw [hpa, hp1]
        exact ⟨cx, hlx, hge⟩

/-- Witness instantiating C4: a 3-passenger trip with a capacity-2 and a
capacity-4 driver available selects the capacity-4 driver. -/
theorem C4_capacity_aware_never_picks_too_small_witness :
    ∃ c, lookup? [(0, 2), (1, 4)] 1 = some c ∧ tripThreePax.num_passengers ≤ c := by
  have h := C4_capacity_aware_never_picks_too_small [(0, 2), (1, 4)] [0, 1]
    (initAvail [0, 1]) tripThreePax ⟨3, 1, "Capacity-Aware"⟩
    (setKey (initAvail [0, 1]) 1 (finishTime tripThreePax))
    (by rfl) (by decide) (by decide)
  exact h

/-- C5: graceful degradation when no driver is available.  (i) When the
availability filter is empty, the FCFS step still assigns, picking a driver
whose `available_at` is globally minimal (the soonest-free driver); (ii) the
nearest and capacity-aware candidate pool widens to the whole driver pool
when the availability filter is empty; (iii) consequently each strategy
assigns every trip it processes: the assignment table has one row per input
trip. -/
theorem C5_graceful_fallback_assigns_every_trip (dist : DistFn)
    (trips : List Trip) (drivers : List ℕ) (locs : LocMap) (caps : CapMap)
    (hd : drivers ≠ [])
    (hlocs : ∀ d ∈ drivers, (lookup? locs d).isSome)
    (hcaps : ∀ d ∈ drivers, (lookup? caps d).isSome) :
    (∀ (st : AvailMap) (t : Trip),
      availableDrivers st t.scheduled_pickup_time = [] → st ≠ [] →
      ∃ p, pickMinBy (fun q : ℕ × WithBot ℚ => q.2) st = some p ∧
        (∀ q ∈ st, p.2 ≤ q.2) ∧
        fcfsStep st t = .ok (⟨t.trip_id, p.1, "FCFS"⟩, setKey st p.1 (finishTime t))) ∧
    (∀ (st : AvailMap) (sched : ℚ), availableDrivers st sched = [] →
      candidatePool st drivers sched = drivers) ∧
    ((∃ l, assignFcfs trips drivers = .ok l ∧ l.length = trips.length) ∧
     (∃ l locs', assignNearest dist trips drivers locs = .ok (l, locs') ∧
        l.length = trips.length) ∧
     (∃ l, assignCapacityAware trips drivers caps = .ok l ∧
        l.length = trips.length)) := by
  refine ⟨?_, ?_, ?_, ?_, ?_⟩
  · intro st t hav hst
    rcases pickMinBy_eq_some (fun q : ℕ × WithBot ℚ => q.2) hst with ⟨p, hp⟩
    refine ⟨p, hp, (pickMinBy_spec _ hp).2, ?_⟩
    simp only [fcfsStep, hav, hp, Option.map_some']
  · intro st sched hav
    simp only [candidatePool, hav, List.isEmpty_nil, if_pos]
  · rcases assignFcfs_spec trips drivers hd with ⟨l, hok, _, hlen, _⟩
    exact ⟨l, hok, hlen⟩
  · rcases assignNearest_spec dist trips drivers locs hd hlocs with
      ⟨l, locs', hok, _, hlen, _⟩
    exact ⟨l, locs', hok, hlen⟩
  · rcases assignCapacityAware_spec trips drivers caps hd hcaps with
      ⟨l, hok, _, hlen, _⟩
    exact ⟨l, hok, hlen⟩

/-- Witness instantiating C5: with the sole driver busy until 16:40
(1000 min), the trip at 10:00 is still assigned to that driver, and the
degraded candidate pool is the full driver list. -/
theorem C5_graceful_fallback_assigns_every_trip_witness :
    fcfsStep [(0, ((1000 : ℚ) : WithBot ℚ))] tripBasic =
      .ok (⟨tripBasic.trip_id, 0, "FCFS"⟩,
        setKey [(0, ((1000 : ℚ) : WithBot ℚ))] 0 (finishTime tripBasic)) ∧
    candidatePool [(0, ((1000 : ℚ) : WithBot ℚ))] [0] 600 = [0] := by
  have h := C5_graceful_fallback_assigns_every_trip zeroDist [tripBasic] [0]
    [(0, (33, -112))] [(0, 2)] (by decide) (by decide) (by decide)
  constructor
  · rcases h.1 [(0, ((1000 : ℚ) : WithBot ℚ))] tripBasic (by decide) (by decide) with
      ⟨p, hp, _, hstep⟩
    have hp0 : p = (0, ((1000 : ℚ) : WithBot ℚ)) := by
      have := (pickMinBy_spec _ hp).1
      simpa using this
    rw [hp0] at hstep
    exact hstep
  · exact h.2.1 [(0, ((1000 : ℚ) : WithBot ℚ))] 600 (by decide)

/-- The computable floor agrees with the mathematical floor. -/
theorem floorQ_eq_floor (q : ℚ) : floorQ q = ⌊q⌋ := (Rat.floor_def).symm

/-- Explicit form of the per-trip transition on a present duration. -/
theorem tripStep_some_eq (dist : DistFn) (speed : ℚ) (addNoise : Bool)
    (cap : ℕ) (g : RandStream) (st : DriverSimState) (rng : RNGState)
    (t : Trip) (d0 : ℚ) (hdur : t.trip_duration_minutes = some d0) :
    tripStep dist speed addNoise cap g st rng t =
      (let cur := if timeDate st.time < timeDate t.scheduled_pickup_time
          then dayStartTime t.scheduled_pickup_time else st.time
       let dh := deadheadMinutes dist speed addNoise g st.loc
          (t.pickup_lat, t.pickup_lng) rng
       let arrival := cur + dh.1
       let actualPickup := max arrival t.scheduled_pickup_time
       let dur := if addNoise then
            let f := drawNormal g 1 (1 / 20) dh.2
            (d0 * f.1, f.2)
          else (d0, dh.2)
       .ok (⟨dist st.loc (t.pickup_lat, t.pickup_lng) + t.distance_miles,
             actualPickup - arrival, actualPickup - t.scheduled_pickup_time,
             (t.num_passengers : ℚ) / (cap : ℚ), dur.1⟩,
            ⟨(t.dropoff_lat, t.dropoff_lng), actualPickup + dur.1⟩, dur.2)) := by
  unfold tripStep
  rw [hdur]

/-- The per-trip transition fails on a missing duration. -/
theorem tripStep_none_eq (dist : DistFn) (speed : ℚ) (addNoise : Bool)
    (cap : ℕ) (g : RandStream) (st : DriverSimState) (rng : RNGState)
    (t : Trip) (hdur : t.trip_duration_minutes = none) :
    tripStep dist speed addNoise cap g st rng t =
      .error ("cannot convert float NaN to integer") := by
  unfold tripStep
  rw [hdur]

/-- C2: in every successful per-trip transition — noise enabled or not —
the actual pickup time is the maximum of the arrival time and the scheduled
pickup time, hence the recorded delay (actual − scheduled) and idle
(actual − arrival) minutes are both nonnegative, and the driver's clock
moves to that pickup time plus the trip execution duration. -/
theorem C2_pickup_max_delay_idle_nonneg (dist : DistFn) (speed : ℚ)
    (addNoise : Bool) (cap : ℕ) (g : RandStream) (st : DriverSimState)
    (rng : RNGState) (t : Trip) (o : TripObs) (st' : DriverSimState)
    (rng' : RNGState)
    (hok : tripStep dist speed addNoise cap g st rng t = .ok (o, st', rng')) :
    ∃ arrival,
      o.idle = max arrival t.scheduled_pickup_time - arrival ∧
      o.delay = max arrival t.scheduled_pickup_time - t.scheduled_pickup_time ∧
      0 ≤ o.idle ∧ 0 ≤ o.delay ∧
      st'.time = max arrival t.scheduled_pickup_time + o.dur := by
  cases hdur : t.trip_duration_minutes with
  | none => rw [tripStep_none_eq dist speed addNoise cap g st rng t hdur] at hok
            exact Except.noConfusion hok
  | some d0 =>
    rw [tripStep_some_eq dist speed addNoise cap g st rng t d0 hdur] at hok
    dsimp only at hok
    simp only [Except.ok.injEq, Prod.mk.injEq] at hok
    obtain ⟨ho, hst', _⟩ := hok
    refine ⟨(if timeDate st.time < timeDate t.scheduled_pickup_time
        then dayStartTime t.scheduled_pickup_time else st.time) +
        (deadheadMinutes dist speed addNoise g st.loc
          (t.pickup_lat, t.pickup_lng) rng).1, ?_, ?_, ?_, ?_, ?_⟩
    · rw [← ho]
    · rw [← ho]
    · rw [← ho]
      exact sub_nonneg.mpr (le_max_left _ _)
    · rw [← ho]
      exact sub_nonneg.mpr (le_max_right _ _)
    · rw [← hst', ← ho]

/-- Witness instantiating C2 with noise enabled on `tripBasic`. -/
theorem C2_pickup_max_delay_idle_nonneg_witness :
    ∃ arrival,
      (⟨5, 60, 0, 1 / 2, 20⟩ : TripObs).idle =
        max arrival tripBasic.scheduled_pickup_time - arrival ∧
      (⟨5, 60, 0, 1 / 2, 20⟩ : TripObs).delay =
        max arrival tripBasic.scheduled_pickup_time -
          tripBasic.scheduled_pickup_time ∧
      0 ≤ (⟨5, 60, 0, 1 / 2, 20⟩ : TripObs).idle ∧
      0 ≤ (⟨5, 60, 0, 1 / 2, 20⟩ : TripObs).delay ∧
      (⟨(34, -113), 620⟩ : DriverSimState).time =
        max arrival tripBasic.scheduled_pickup_time +
          (⟨5, 60, 0, 1 / 2, 20⟩ : TripObs).dur := by
  refine C2_pickup_max_delay_idle_nonneg zeroDist 25 true 2 zeroStream
    ⟨(33, -112), 540⟩ (setSeed RANDOM_SEED) tripBasic _ _ ⟨42, 2⟩ ?_
  rw [tripStep_some_eq zeroDist 25 true 2 zeroStream ⟨(33, -112), 540⟩
    (setSeed RANDOM_SEED) tripBasic 20 (by rfl)]
  dsimp only [zeroDist, zeroStream, tripBasic, deadheadMinutes, drawNormal,
    setSeed, RANDOM_SEED]
  norm_num [timeDate, floorQ_eq_floor, dayStartTime, sixAMOf, TripObs.mk.injEq,
    DriverSimState.mk.injEq, Prod.mk.injEq]

/-- C3: when a trip's scheduled date is strictly later than the driver's
current date, the transition behaves exactly as if the clock had been reset
to `max(scheduled − 1 hour, scheduled at 06:00)` (the per-day start rule),
and consequently the idle minutes recorded for such a day-crossing trip are
at most 60 — a multi-hour overnight gap is never counted as idle time. -/
theorem C3_day_boundary_reset_bounds_idle (dist : DistFn) (speed : ℚ)
    (addNoise : Bool) (cap : ℕ) (g : RandStream) (st : DriverSimState)
    (rng : RNGState) (t : Trip)
    (hcross : timeDate st.time < timeDate t.scheduled_pickup_time) :
    tripStep dist speed addNoise cap g st rng t =
      tripStep dist speed addNoise cap g
        ⟨st.loc, dayStartTime t.scheduled_pickup_time⟩ rng t ∧
    ∀ o st' rng',
      tripStep dist speed addNoise cap g st rng t = .ok (o, st', rng') →
      0 ≤ (deadheadMinutes dist speed addNoise g st.loc
        (t.pickup_lat, t.pickup_lng) rng).1 →
      o.idle ≤ 60 := by
  constructor
  · unfold tripStep
    rw [if_pos hcross]
    dsimp only
    rw [ite_self]
  · intro o st' rng' hok hdh
    cases hdur : t.trip_duration_minutes with
    | none => rw [tripStep_none_eq dist speed addNoise cap g st rng t hdur] at hok
              exact Except.noConfusion hok
    | some d0 =>
      rw [tripStep_some_eq dist speed addNoise cap g st rng t d0 hdur] at hok
      dsimp only at hok
      rw [if_pos hcross] at hok
      simp only [Except.ok.injEq, Prod.mk.injEq] at hok
      obtain ⟨ho, _, _⟩ := hok
      have hidle : o.idle =
          max (dayStartTime t.scheduled_pickup_time +
              (deadheadMinutes dist speed addNoise g st.loc
                (t.pickup_lat, t.pickup_lng) rng).1) t.scheduled_pickup_time -
            (dayStartTime t.scheduled_pickup_time +
              (deadheadMinutes dist speed addNoise g st.loc
                (t.pickup_lat, t.pickup_lng) rng).1) := by
        rw [← ho]
      have hstart : t.scheduled_pickup_time - 60 ≤
          dayStartTime t.scheduled_pickup_time := le_max_left _ _
      rw [hidle]
      have harr : t.scheduled_pickup_time ≤
          (dayStartTime t.scheduled_pickup_time +
            (deadheadMinutes dist speed addNoise g st.loc
              (t.pickup_lat, t.pickup_lng) rng).1) + 60 := by
        linarith
      have hle : max (dayStartTime t.scheduled_pickup_time +
          (deadheadMinutes dist speed addNoise g st.loc
            (t.pickup_lat, t.pickup_lng) rng).1) t.scheduled_pickup_time ≤
          (dayStartTime t.scheduled_pickup_time +
            (deadheadMinutes dist speed addNoise g st.loc
              (t.pickup_lat, t.pickup_lng) rng).1) + 60 :=
        max_le (by linarith) harr
      linarith

/-- Witness instantiating C3 on a day-0 driver state and a day-1 trip. -/
theorem C3_day_boundary_reset_bounds_idle_witness :
    tripStep zeroDist 25 true 2 zeroStream ⟨(33, -112), 540⟩
        (setSeed RANDOM_SEED) tripDayTwo =
      tripStep zeroDist 25 true 2 zeroStream
        ⟨(33, -112), dayStartTime tripDayTwo.scheduled_pickup_time⟩
        (setSeed RANDOM_SEED) tripDayTwo ∧
    (⟨5, 60, 0, 1 / 2, 20⟩ : TripObs).idle ≤ 60 := by
  have hcross : timeDate (540 : ℚ) < timeDate tripDayTwo.scheduled_pickup_time := by
    norm_num [timeDate, floorQ_eq_floor, tripDayTwo]
  have h := C3_day_boundary_reset_bounds_idle zeroDist 25 true 2 zeroStream
    ⟨(33, -112), 540⟩ (setSeed RANDOM_SEED) tripDayTwo hcross
  refine ⟨h.1, ?_⟩
  refine h.2 (⟨5, 60, 0, 1 / 2, 20⟩ : TripObs) ⟨(34, -113), 2060⟩ ⟨42, 2⟩ ?_ ?_
  · rw [tripStep_some_eq zeroDist 25 true 2 zeroStream ⟨(33, -112), 540⟩
      (setSeed RANDOM_SEED) tripDayTwo 20 (by rfl)]
    dsimp only [zeroDist, zeroStream, tripDayTwo, deadheadMinutes, drawNormal,
      setSeed, RANDOM_SEED]
    norm_num [timeDate, floorQ_eq_floor, dayStartTime, sixAMOf, TripObs.mk.injEq,
      DriverSimState.mk.injEq, Prod.mk.injEq]
  · dsimp only [zeroDist, zeroStream, deadheadMinutes, drawNormal, setSeed]
    norm_num

/-- C6 counterexample: on a missing duration the assignment strategies do
substitute the 30-minute default — `assign_fcfs` succeeds — but the
execution simulator does not: its per-trip transition fails like
`timedelta(minutes=NaN)` instead of producing a finish-time estimate. -/
theorem C6_counterexample_simulator_no_default :
    assignFcfs [tripNoDur] [0] = .ok [⟨tripNoDur.trip_id, 0, "FCFS"⟩] ∧
    tripStep zeroDist 25 true 2 zeroStream ⟨(33, -112), 540⟩
        (setSeed RANDOM_SEED) tripNoDur =
      .error ("cannot convert float NaN to integer") := by
  constructor
  · rfl
  · rfl

/-- C6 (amended): for a trip with missing duration, every assignment
strategy computes the driver's next free time with the fixed 30-minute
default (via the shared `finishTime`, i.e. `scheduled + (30 + 10)`), but
the execution simulator substitutes nothing: its per-trip transition uses
the raw duration and fails on the missing value. -/
theorem C6_strategies_default_simulator_fails (t : Trip)
    (hdur : t.trip_duration_minutes = none) :
    finishTime t = t.scheduled_pickup_time + (30 + 10) ∧
    ∀ (dist : DistFn) (speed : ℚ) (addNoise : Bool) (cap : ℕ)
      (g : RandStream) (st : DriverSimState) (rng : RNGState),
      tripStep dist speed addNoise cap g st rng t =
        .error ("cannot convert float NaN to integer") := by
  constructor
  · unfold finishTime
    rw [hdur]
    rfl
  · intro dist speed addNoise cap g st rng
    exact tripStep_none_eq dist speed addNoise cap g st rng t hdur

/-- Witness instantiating C6's amended theorem on `tripNoDur`. -/
theorem C6_strategies_default_simulator_fails_witness :
    finishTime tripNoDur = tripNoDur.scheduled_pickup_time + (30 + 10) ∧
    tripStep zeroDist 25 false 2 zeroStream ⟨(33, -112), 540⟩
        (setSeed RANDOM_SEED) tripNoDur =
      .error ("cannot convert float NaN to integer") := by
  have h := C6_strategies_default_simulator_fails tripNoDur (by rfl)
  exact ⟨h.1, h.2 zeroDist 25 false 2 zeroStream ⟨(33, -112), 540⟩
    (setSeed RANDOM_SEED)⟩

/-- Every merged row's trip component is one of the input trips. -/
theorem mergeTrips_fst_mem (trips : List Trip) (asg : List Assignment)
    (p : Trip × Assignment) (hp : p ∈ mergeTrips trips asg) : p.1 ∈ trips := by
  unfold mergeTrips at hp
  rcases List.mem_flatMap.mp hp with ⟨t, ht, hpt⟩
  rcases List.mem_map.mp hpt with ⟨a, _, hpa⟩
  rw [← hpa]
  exact ht

/-- C8 counterexample: an empty driver pool makes the assignment strategies
raise (`min` of an empty sequence) rather than degrade, and an empty trip
set yields an empty, column-less assignment table on which
`simulate_strategy` raises at the merge/`iloc[0]` step instead of
returning neutral metrics. -/
theorem C8_counterexample_empty_inputs_raise :
    assignFcfs [tripBasic] ([] : List ℕ) =
      .error ("min arg is an empty sequence") ∧
    assignFcfs ([] : List Trip) [0] = .ok [] ∧
    simulateStrategy zeroStream zeroDist [] [] [] [] 25 true
        (setSeed RANDOM_SEED) = .error ("KeyError trip_id") := by
  exact ⟨rfl, rfl, rfl⟩

/-- C8 (amended): neutral degradation does hold one level up — with a
nonempty assignment table whose trips are all cancelled, `simulate_strategy`
returns the defined neutral result (all rates and averages 0, zero trips)
instead of raising; but a literally empty trip set or empty driver pool
raises inside the pipeline rather than degrading. -/
theorem C8_all_cancelled_neutral_metrics (g : RandStream) (dist : DistFn)
    (trips : List Trip) (a0 : Assignment) (rest : List Assignment)
    (locs : LocMap) (caps : CapMap) (speed : ℚ) (addNoise : Bool)
    (amb : RNGState) (hcan : ∀ t ∈ trips, t.is_cancelled = true) :
    simulateStrategy g dist trips (a0 :: rest) locs caps speed addNoise amb =
      .ok ⟨a0.strategy, 0, 0, 0, 0, 0, 0⟩ := by
  have hactive : (mergeTrips trips (a0 :: rest)).filter
      (fun p => !p.1.is_cancelled) = [] := by
    rw [List.filter_eq_nil_iff]
    intro p hp
    rw [hcan p.1 (mergeTrips_fst_mem trips (a0 :: rest) p hp)]
    exact fun h => by cases h
  unfold simulateStrategy
  dsimp only
  rw [hactive]
  rfl

/-- Witness instantiating C8's amended theorem: a single cancelled trip
with a nonempty assignment table yields the neutral zero result. -/
theorem C8_all_cancelled_neutral_metrics_witness :
    simulateStrategy zeroStream zeroDist [tripCancelled] [⟨1, 0, "FCFS"⟩]
        [] [] 25 true (setSeed RANDOM_SEED) =
      .ok ⟨"FCFS", 0, 0, 0, 0, 0, 0⟩ := by
  exact C8_all_cancelled_neutral_metrics zeroStream zeroDist [tripCancelled]
    ⟨1, 0, "FCFS"⟩ [] [] [] 25 true (setSeed RANDOM_SEED) (by decide)

/-- The mean of a list of values in the unit interval is in the unit
interval (and the empty mean is 0). -/
theorem mean_mem_unit (l : List ℚ) (h : ∀ x ∈ l, 0 ≤ x ∧ x ≤ 1) :
    0 ≤ mean l ∧ mean l ≤ 1 := by
  cases l with
  | nil => constructor <;> norm_num [mean]
  | cons x xs =>
    have hlen : (0 : ℚ) < ((x :: xs).length : ℚ) := by
      exact_mod_cast Nat.succ_pos xs.length
    have hsum0 : 0 ≤ (x :: xs).sum := List.sum_nonneg (fun y hy => (h y hy).1)
    have hsum1 : (x :: xs).sum ≤ ((x :: xs).length : ℚ) := by
      have := List.sum_le_card_nsmul (x :: xs) 1 (fun y hy => (h y hy).2)
      simpa [nsmul_eq_mul] using this
    unfold mean
    exact ⟨div_nonneg hsum0 (le_of_lt hlen), (div_le_one hlen).mpr hsum1⟩

/-- Each observation records utilization as passengers over capacity. -/
theorem tripStep_util (dist : DistFn) (speed : ℚ) (addNoise : Bool) (cap : ℕ)
    (g : RandStream) (st : DriverSimState) (rng : RNGState) (t : Trip)
    (o : TripObs) (st' : DriverSimState) (rng' : RNGState)
    (hok : tripStep dist speed addNoise cap g st rng t = .ok (o, st', rng')) :
    o.util = (t.num_passengers : ℚ) / (cap : ℚ) := by
  cases hdur : t.trip_duration_minutes with
  | none =>
    rw [tripStep_none_eq dist speed addNoise cap g st rng t hdur] at hok
    exact Except.noConfusion hok
  | some d0 =>
    rw [tripStep_some_eq dist speed addNoise cap g st rng t d0 hdur] at hok
    dsimp only at hok
    simp only [Except.ok.injEq, Prod.mk.injEq] at hok
    rw [← hok.1]

/-- Utilizations along one driver's replay come from that driver's trips. -/
theorem simDriver_util (dist : DistFn) (speed : ℚ) (addNoise : Bool) (cap : ℕ)
    (g : RandStream) :
    ∀ (ts : List Trip) (st : DriverSimState) (rng : RNGState)
      (obs : List TripObs) (rng' : RNGState),
      simDriver dist speed addNoise cap g st rng ts = .ok (obs, rng') →
      ∀ o ∈ obs, ∃ t ∈ ts, o.util = (t.num_passengers : ℚ) / (cap : ℚ) := by
  intro ts
  induction ts with
  | nil =>
    intro st rng obs rng' hok o ho
    simp only [simDriver, Except.ok.injEq, Prod.mk.injEq] at hok
    rw [← hok.1] at ho
    cases ho
  | cons t ts ih =>
    intro st rng obs rng' hok o ho
    unfold simDriver at hok
    cases hstep : tripStep dist speed addNoise cap g st rng t with
    | error e => rw [hstep] at hok; exact Except.noConfusion hok
    | ok v =>
      obtain ⟨o1, st1, rng1⟩ := v
      rw [hstep] at hok
      dsimp only at hok
      cases hrec : simDriver dist speed addNoise cap g st1 rng1 ts with
      | error e => rw [hrec] at hok; exact Except.noConfusion hok
      | ok w =>
        obtain ⟨obs2, rng2⟩ := w
        rw [hrec] at hok
        dsimp only at hok
        simp only [Except.ok.injEq, Prod.mk.injEq] at hok
        rw [← hok.1] at ho
        rcases List.mem_cons.mp ho with ho | ho
        · rw [ho]
          exact ⟨t, List.mem_cons_self t ts,
            tripStep_util dist speed addNoise cap g st rng t o1 st1 rng1 hstep⟩
        · rcases ih st1 rng1 obs2 rng2 hrec o ho with ⟨u, hu, huu⟩
          exact ⟨u, List.mem_cons_of_mem t hu, huu⟩

/-- Utilizations of one simulated group use that group's capacity lookup. -/
theorem simGroup_util (dist : DistFn) (speed : ℚ) (addNoise : Bool)
    (g : RandStream) (locs : LocMap) (caps : CapMap) (d : ℕ)
    (grp : List Trip) (rng : RNGState) (obs : List TripObs) (rng' : RNGState)
    (hok : simGroup dist speed addNoise g locs caps d grp rng = .ok (obs, rng')) :
    ∀ o ∈ obs, ∃ t ∈ grp, ∃ cap, lookup? caps d = some cap ∧
      o.util = (t.num_passengers : ℚ) / (cap : ℚ) := by
  intro o ho
  unfold simGroup at hok
  cases hs : sortTripsBy (·.scheduled_pickup_time) grp with
  | nil =>
    rw [hs] at hok
    simp only [Except.ok.injEq, Prod.mk.injEq] at hok
    rw [← hok.1] at ho
    cases ho
  | cons t0 rest =>
    rw [hs] at hok
    cases hl : lookup? locs d with
    | none =>
      cases hc : lookup? caps d with
      | none => rw [hl, hc] at hok; exact Except.noConfusion hok
      | some cap => rw [hl, hc] at hok; exact Except.noConfusion hok
    | some loc0 =>
      cases hc : lookup? caps d with
      | none => rw [hl, hc] at hok; exact Except.noConfusion hok
      | some cap =>
        rw [hl, hc] at hok
        dsimp only at hok
        rcases simDriver_util dist speed addNoise cap g (t0 :: rest) _ _ obs rng'
            hok o ho with ⟨t, ht, htu⟩
        refine ⟨t, ?_, cap, rfl, htu⟩
        have hmem : t ∈ sortTripsBy (·.scheduled_pickup_time) grp := by
          rw [hs]; exact ht
        exact (sortTripsBy_perm _ grp).mem_iff.mp hmem

/-- Utilizations across all groups come from some group's trips. -/
theorem simGroups_util (dist : DistFn) (speed : ℚ) (addNoise : Bool)
    (g : RandStream) (locs : LocMap) (caps : CapMap)
    (active : List (Trip × Assignment)) :
    ∀ (ds : List ℕ) (rng : RNGState) (obs : List TripObs) (rng' : RNGState),
      simGroups dist speed addNoise g locs caps active ds rng = .ok (obs, rng') →
      ∀ o ∈ obs, ∃ d ∈ ds, ∃ t ∈ groupOf active d, ∃ cap,
        lookup? caps d = some cap ∧
        o.util = (t.num_passengers : ℚ) / (cap : ℚ) := by
  intro ds
  induction ds with
  | nil =>
    intro rng obs rng' hok o ho
    simp only [simGroups, Except.ok.injEq, Prod.mk.injEq] at hok
    rw [← hok.1] at ho
    cases ho
  | cons d ds ih =>
    intro rng obs rng' hok o ho
    unfold simGroups at hok
    cases h1 : simGroup dist speed addNoise g locs caps d (groupOf active d) rng with
    | error e => rw [h1] at hok; exact Except.noConfusion hok
    | ok v =>
      obtain ⟨o1, rng1⟩ := v
      rw [h1] at hok
      dsimp only at hok
      cases h2 : simGroups dist speed addNoise g locs caps active ds rng1 with
      | error e => rw [h2] at hok; exact Except.noConfusion hok
      | ok w =>
        obtain ⟨o2, rng2⟩ := w
        rw [h2] at hok
        dsimp only at hok
        simp only [Except.ok.injEq, Prod.mk.injEq] at hok
        rw [← hok.1] at ho
        rcases List.mem_append.mp ho with ho | ho
        · rcases simGroup_util dist speed addNoise g locs caps d
              (groupOf active d) rng o1 rng1 h1 o ho with ⟨t, ht, cap, hc, hu⟩
          exact ⟨d, List.mem_cons_self d ds, t, ht, cap, hc, hu⟩
        · rcases ih rng1 o2 rng2 h2 o ho with ⟨d', hd', t, ht, cap, hc, hu⟩
          exact ⟨d', List.mem_cons_of_mem d hd', t, ht, cap, hc, hu⟩

/-- Members of a driver's group are active rows assigned to that driver. -/
theorem groupOf_mem (active : List (Trip × Assignment)) (d : ℕ) (t : Trip)
    (ht : t ∈ groupOf active d) :
    ∃ p ∈ active, p.1 = t ∧ p.2.assigned_driver = d := by
  unfold groupOf at ht
  rcases List.mem_map.mp ht with ⟨p, hp, hpt⟩
  have hf := List.mem_filter.mp hp
  refine ⟨p, hf.1, hpt, ?_⟩
  simpa using hf.2

/-- C9: every result of `simulate_strategy` has an on-time rate in [0, 1];
and its utilization rate is in [0, 1] provided every active (non-cancelled,
merged) trip's passenger count is at most its assigned driver's capacity
and capacities are positive. -/
theorem C9_rates_in_unit_interval (g : RandStream) (dist : DistFn)
    (trips : List Trip) (assignments : List Assignment) (locs : LocMap)
    (caps : CapMap) (speed : ℚ) (addNoise : Bool) (amb : RNGState)
    (r : SimulationResult)
    (hok : simulateStrategy g dist trips assignments locs caps speed addNoise
      amb = .ok r) :
    (0 ≤ r.on_time_rate ∧ r.on_time_rate ≤ 1) ∧
    ((∀ p ∈ (mergeTrips trips assignments).filter (fun q => !q.1.is_cancelled),
        ∃ c, lookup? caps p.2.assigned_driver = some c ∧ 0 < c ∧
          p.1.num_passengers ≤ c) →
      0 ≤ r.utilization_rate ∧ r.utilization_rate ≤ 1) := by
  unfold simulateStrategy at hok
  cases assignments with
  | nil => exact Except.noConfusion hok
  | cons a0 rest =>
    dsimp only at hok
    cases hsim : simGroups dist speed addNoise g locs caps
        ((mergeTrips trips (a0 :: rest)).filter (fun p => !p.1.is_cancelled))
        (groupKeys ((mergeTrips trips (a0 :: rest)).filter
          (fun p => !p.1.is_cancelled)))
        (setSeed RANDOM_SEED) with
    | error e => rw [hsim] at hok; exact Except.noConfusion hok
    | ok v =>
      obtain ⟨obs, rng2⟩ := v
      rw [hsim] at hok
      dsimp only at hok
      simp only [Except.ok.injEq] at hok
      constructor
      · rw [← hok]
        dsimp only
        by_cases hemp : (obs.map (·.delay)).isEmpty = true
        · rw [if_pos hemp]; norm_num
        · rw [if_neg hemp]
          apply mean_mem_unit
          intro x hx
          rcases List.mem_map.mp hx with ⟨q, _, hxq⟩
          rw [← hxq]
          by_cases hq : q ≤ 10
          · rw [if_pos hq]; norm_num
          · rw [if_neg hq]; norm_num
      · intro hcap
        rw [← hok]
        dsimp only
        by_cases hemp : (obs.map (·.util)).isEmpty = true
        · rw [if_pos hemp]; norm_num
        · rw [if_neg hemp]
          apply mean_mem_unit
          intro x hx
          rcases List.mem_map.mp hx with ⟨o, ho, hxo⟩
          rcases simGroups_util dist speed addNoise g locs caps _ _ _ _ _ hsim o ho
            with ⟨d, _, t, ht, cap, hcl, hu⟩
          rcases groupOf_mem _ d t ht with ⟨p, hpact, hpt, hpd⟩
          rcases hcap p hpact with ⟨c, hcl', hcpos, hcle⟩
          have hcc : cap = c := by
            rw [hpd, hcl] at hcl'
            exact Option.some.inj hcl'
          rw [← hxo, hu, hcc]
          have hcposq : (0 : ℚ) < (c : ℚ) := by exact_mod_cast hcpos
          constructor
          · exact div_nonneg (Nat.cast_nonneg _) (le_of_lt hcposq)
          · rw [div_le_one hcposq]
            have : t.num_passengers ≤ c := by
              rw [← hpt] at ht ⊢
              exact hcle
            exact_mod_cast this

/-- Witness instantiating C9 on a one-trip, one-driver simulation run. -/
theorem C9_rates_in_unit_interval_witness :
    (0 ≤ (⟨"FCFS", 1, 1, 5, 20, 60, 1 / 2⟩ : SimulationResult).on_time_rate ∧
      (⟨"FCFS", 1, 1, 5, 20, 60, 1 / 2⟩ : SimulationResult).on_time_rate ≤ 1) ∧
    (0 ≤ (⟨"FCFS", 1, 1, 5, 20, 60, 1 / 2⟩ : SimulationResult).utilization_rate ∧
      (⟨"FCFS", 1, 1, 5, 20, 60, 1 / 2⟩ : SimulationResult).utilization_rate ≤ 1) := by
  have hstep : tripStep zeroDist 25 true 2 zeroStream
      ⟨(33, -112), dayStartTime tripBasic.scheduled_pickup_time⟩
      (setSeed RANDOM_SEED) tripBasic =
      .ok (⟨5, 60, 0, 1 / 2, 20⟩, ⟨(34, -113), 620⟩, ⟨42, 2⟩) := by
    rw [tripStep_some_eq zeroDist 25 true 2 zeroStream
      ⟨(33, -112), dayStartTime tripBasic.scheduled_pickup_time⟩
      (setSeed RANDOM_SEED) tripBasic 20 (by rfl)]
    dsimp only [zeroDist, zeroStream, tripBasic, deadheadMinutes, drawNormal,
      setSeed, RANDOM_SEED]
    norm_num [timeDate, floorQ_eq_floor, dayStartTime, sixAMOf, TripObs.mk.injEq,
      DriverSimState.mk.injEq, Prod.mk.injEq]
  have hsd : simDriver zeroDist 25 true 2 zeroStream
      ⟨(33, -112), dayStartTime tripBasic.scheduled_pickup_time⟩
      (setSeed RANDOM_SEED) [tripBasic] =
      .ok ([⟨5, 60, 0, 1 / 2, 20⟩], ⟨42, 2⟩) := by
    unfold simDriver
    rw [hstep]
    rfl
  have hsg : simGroup zeroDist 25 true zeroStream [(0, (33, -112))] [(0, 2)] 0
      [tripBasic] (setSeed RANDOM_SEED) =
      .ok ([⟨5, 60, 0, 1 / 2, 20⟩], ⟨42, 2⟩) := by
    unfold simGroup
    exact hsd
  have hsgs : simGroups zeroDist 25 true zeroStream [(0, (33, -112))] [(0, 2)]
      [(tripBasic, ⟨2, 0, "FCFS"⟩)] [0] (setSeed RANDOM_SEED) =
      .ok ([⟨5, 60, 0, 1 / 2, 20⟩], ⟨42, 2⟩) := by
    unfold simGroups
    have hgo : groupOf [(tripBasic, ⟨2, 0, "FCFS"⟩)] 0 = [tripBasic] := rfl
    rw [hgo, hsg]
    rfl
  have hok : simulateStrategy zeroStream zeroDist [tripBasic] [⟨2, 0, "FCFS"⟩]
      [(0, (33, -112))] [(0, 2)] 25 true (setSeed RANDOM_SEED) =
      .ok ⟨"FCFS", 1, 1, 5, 20, 60, 1 / 2⟩ := by
    unfold simulateStrategy
    dsimp only
    have hactive : (mergeTrips [tripBasic] [⟨2, 0, "FCFS"⟩]).filter
        (fun p => !p.1.is_cancelled) = [(tripBasic, ⟨2, 0, "FCFS"⟩)] := rfl
    rw [hactive]
    have hgk : groupKeys [(tripBasic, ⟨2, 0, "FCFS"⟩)] = [0] := rfl
    rw [hgk, hsgs]
    dsimp only
    norm_num [mean, SimulationResult.mk.injEq]
  have h := C9_rates_in_unit_interval zeroStream zeroDist [tripBasic]
    [⟨2, 0, "FCFS"⟩] [(0, (33, -112))] [(0, 2)] 25 true (setSeed RANDOM_SEED)
    ⟨"FCFS", 1, 1, 5, 20, 60, 1 / 2⟩ hok
  exact ⟨h.1, h.2 (by decide)⟩

/-- A private copy has the same bindings as the original. -/
theorem privateCopy_eq {β : Type*} (m : List (ℕ × β)) : privateCopy m = m := by
  induction m with
  | nil => rfl
  | cons p ps ih =>
    simp only [privateCopy, List.foldr_cons] at ih ⊢
    rw [ih]

/-- C10: `assign_nearest` really mutates the location map it is handed
(first conjunct: on a concrete input the returned map differs from the
initial one, so the `.copy()` is load-bearing), yet `run_simulation_comparison`
behaves exactly as the spec's private-copy calling convention demands:
because the nearest strategy receives `initial_locations.copy()` and its
mutation is discarded, the orchestrator equals the spec-modelled variant in
which every strategy and every simulation receives a fresh copy of the
initially drawn attribute maps. -/
theorem C10_shared_maps_never_mutated :
    (∃ l locs', assignNearest zeroDist [tripBasic] [0] [(0, (33, -112))] =
        .ok (l, locs') ∧ locs' ≠ [(0, (33, -112))]) ∧
    ∀ (g : RandStream) (dist : DistFn) (trips : List Trip)
      (numDrivers seed : ℕ) (amb : RNGState),
      runComparison g dist trips numDrivers seed amb =
        runComparisonSpec g dist trips numDrivers seed amb := by
  constructor
  · refine ⟨[⟨2, 0, "Nearest"⟩], [(0, (34, -113))], rfl, ?_⟩
    intro h
    have h34 : ((34 : ℚ), (-113 : ℚ)) = ((33 : ℚ), (-112 : ℚ)) := by
      have := List.head_eq_of_cons_eq h
      exact congrArg Prod.snd this
    have : (34 : ℚ) = 33 := congrArg Prod.fst h34
    norm_num at this
  · intro g dist trips numDrivers seed amb
    unfold runComparison runComparisonSpec
    simp only [privateCopy_eq]

/-! Stream-dependence lemmas: which seeds each phase of the orchestrator
actually reads, and that every draw preserves the current seed. -/

/-- Location generation keeps the RNG on its current seed. -/
theorem genLocations_seed (g : RandStream) :
    ∀ (ds : List ℕ) (st : RNGState), (genLocations g ds st).2.seed = st.seed := by
  intro ds
  induction ds with
  | nil => intro st; rfl
  | cons d ds ih =>
    intro st
    unfold genLocations
    dsimp only [drawUniform]
    exact ih ⟨st.seed, st.idx + 1 + 1⟩

/-- Location generation reads the stream only at the state's seed. -/
theorem genLocations_congr (g1 g2 : RandStream) (s : ℕ)
    (h : ∀ i, g1 s i = g2 s i) :
    ∀ (ds : List ℕ) (st : RNGState), st.seed = s →
      genLocations g1 ds st = genLocations g2 ds st := by
  intro ds
  induction ds with
  | nil => intro st _; rfl
  | cons d ds ih =>
    intro st hst
    unfold genLocations
    dsimp only [drawUniform]
    have e1 : g1 st.seed st.idx = g2 st.seed st.idx := by
      rw [hst]; exact h st.idx
    have e2 : g1 st.seed (st.idx + 1) = g2 st.seed (st.idx + 1) := by
      rw [hst]; exact h (st.idx + 1)
    rw [e1, e2, ih ⟨st.seed, st.idx + 1 + 1⟩ hst]

/-- Capacity generation keeps the RNG on its current seed. -/
theorem genCapacities_seed (g : RandStream) :
    ∀ (ds : List ℕ) (st : RNGState), (genCapacities g ds st).2.seed = st.seed := by
  intro ds
  induction ds with
  | nil => intro st; rfl
  | cons d ds ih =>
    intro st
    unfold genCapacities
    dsimp only [drawChoice]
    exact ih ⟨st.seed, st.idx + 1⟩

/-- Capacity generation reads the stream only at the state's seed. -/
theorem genCapacities_congr (g1 g2 : RandStream) (s : ℕ)
    (h : ∀ i, g1 s i = g2 s i) :
    ∀ (ds : List ℕ) (st : RNGState), st.seed = s →
      genCapacities g1 ds st = genCapacities g2 ds st := by
  intro ds
  induction ds with
  | nil => intro st _; rfl
  | cons d ds ih =>
    intro st hst
    unfold genCapacities
    dsimp only [drawChoice]
    have e1 : g1 st.seed st.idx = g2 st.seed st.idx := by
      rw [hst]; exact h st.idx
    rw [e1, ih ⟨st.seed, st.idx + 1⟩ hst]

/-- A per-trip transition reads the stream only at its state's seed. -/
theorem tripStep_congr (g1 g2 : RandStream) (s : ℕ) (h : ∀ i, g1 s i = g2 s i)
    (dist : DistFn) (speed : ℚ) (addNoise : Bool) (cap : ℕ)
    (st : DriverSimState) (rng : RNGState) (t : Trip) (hseed : rng.seed = s) :
    tripStep dist speed addNoise cap g1 st rng t =
      tripStep dist speed addNoise cap g2 st rng t := by
  have e1 : g1 rng.seed rng.idx = g2 rng.seed rng.idx := by
    rw [hseed]; exact h rng.idx
  have e2 : g1 rng.seed (rng.idx + 1) = g2 rng.seed (rng.idx + 1) := by
    rw [hseed]; exact h (rng.idx + 1)
  cases addNoise with
  | false => rfl
  | true =>
    unfold tripStep deadheadMinutes drawNormal
    simp only [eq_self_iff_true, if_true]
    rw [e1, e2]

/-- A successful per-trip transition preserves the RNG seed. -/
theorem tripStep_seed (dist : DistFn) (speed : ℚ) (addNoise : Bool) (cap : ℕ)
    (g : RandStream) (st : DriverSimState) (rng : RNGState) (t : Trip)
    (o : TripObs) (st' : DriverSimState) (rng' : RNGState)
    (hok : tripStep dist speed addNoise cap g st rng t = .ok (o, st', rng')) :
    rng'.seed = rng.seed := by
  cases hdur : t.trip_duration_minutes with
  | none =>
    rw [tripStep_none_eq dist speed addNoise cap g st rng t hdur] at hok
    exact Except.noConfusion hok
  | some d0 =>
    rw [tripStep_some_eq dist speed addNoise cap g st rng t d0 hdur] at hok
    cases addNoise with
    | false =>
      simp only [Bool.false_eq_true, if_false, deadheadMinutes, drawNormal,
        Except.ok.injEq, Prod.mk.injEq] at hok
      rw [← hok.2.2]
    | true =>
      simp only [eq_self_iff_true, if_true, deadheadMinutes, drawNormal,
        Except.ok.injEq, Prod.mk.injEq] at hok
      rw [← hok.2.2]

/-- A driver replay reads the stream only at its state's seed. -/
theorem simDriver_congr (g1 g2 : RandStream) (s : ℕ) (h : ∀ i, g1 s i = g2 s i)
    (dist : DistFn) (speed : ℚ) (addNoise : Bool) (cap : ℕ) :
    ∀ (ts : List Trip) (st : DriverSimState) (rng : RNGState), rng.seed = s →
      simDriver dist speed addNoise cap g1 st rng ts =
        simDriver dist speed addNoise cap g2 st rng ts := by
  intro ts
  induction ts with
  | nil => intro st rng _; rfl
  | cons t ts ih =>
    intro st rng hseed
    unfold simDriver
    rw [tripStep_congr g1 g2 s h dist speed addNoise cap st rng t hseed]
    cases hstep : tripStep dist speed addNoise cap g2 st rng t with
    | error e => rfl
    | ok v =>
      obtain ⟨o1, st1, rng1⟩ := v
      dsimp only
      rw [ih st1 rng1 (by
        rw [tripStep_seed dist speed addNoise cap g2 st rng t o1 st1 rng1 hstep]
        exact hseed)]

/-- A successful driver replay preserves the RNG seed. -/
theorem simDriver_seed (dist : DistFn) (speed : ℚ) (addNoise : Bool) (cap : ℕ)
    (g : RandStream) :
    ∀ (ts : List Trip) (st : DriverSimState) (rng : RNGState)
      (obs : List TripObs) (rng' : RNGState),
      simDriver dist speed addNoise cap g st rng ts = .ok (obs, rng') →
      rng'.seed = rng.seed := by
  intro ts
  induction ts with
  | nil =>
    intro st rng obs rng' hok
    simp only [simDriver, Except.ok.injEq, Prod.mk.injEq] at hok
    rw [← hok.2]
  | cons t ts ih =>
    intro st rng obs rng' hok
    unfold simDriver at hok
    cases hstep : tripStep dist speed addNoise cap g st rng t with
    | error e => rw [hstep] at hok; exact Except.noConfusion hok
    | ok v =>
      obtain ⟨o1, st1, rng1⟩ := v
      rw [hstep] at hok
      dsimp only at hok
      cases hrec : simDriver dist speed addNoise cap g st1 rng1 ts with
      | error e => rw [hrec] at hok; exact Except.noConfusion hok
      | ok w =>
        obtain ⟨obs2, rng2⟩ := w
        rw [hrec] at hok
        dsimp only at hok
        simp only [Except.ok.injEq, Prod.mk.injEq] at hok
        rw [← hok.2]
        rw [ih st1 rng1 obs2 rng2 hrec]
        exact tripStep_seed dist speed addNoise cap g st rng t o1 st1 rng1 hstep

/-- A group simulation reads the stream only at its state's seed. -/
theorem simGroup_congr (g1 g2 : RandStream) (s : ℕ) (h : ∀ i, g1 s i = g2 s i)
    (dist : DistFn) (speed : ℚ) (addNoise : Bool) (locs : LocMap)
    (caps : CapMap) (d : ℕ) (grp : List Trip) (rng : RNGState)
    (hseed : rng.seed = s) :
    simGroup dist speed addNoise g1 locs caps d grp rng =
      simGroup dist speed addNoise g2 locs caps d grp rng := by
  unfold simGroup
  cases sortTripsBy (·.scheduled_pickup_time) grp with
  | nil => rfl
  | cons t0 rest =>
    cases lookup? locs d with
    | none =>
      cases lookup? caps d with
      | none => rfl
      | some cap => rfl
    | some loc0 =>
      cases lookup? caps d with
      | none => rfl
      | some cap =>
        exact simDriver_congr g1 g2 s h dist speed addNoise cap (t0 :: rest)
          ⟨loc0, dayStartTime t0.scheduled_pickup_time⟩ rng hseed

/-- A successful group simulation preserves the RNG seed. -/
theorem simGroup_seed (dist : DistFn) (speed : ℚ) (addNoise : Bool)
    (g : RandStream) (locs : LocMap) (caps : CapMap) (d : ℕ) (grp : List Trip)
    (rng : RNGState) (obs : List TripObs) (rng' : RNGState)
    (hok : simGroup dist speed addNoise g locs caps d grp rng = .ok (obs, rng')) :
    rng'.seed = rng.seed := by
  unfold simGroup at hok
  cases hs : sortTripsBy (·.scheduled_pickup_time) grp with
  | nil =>
    rw [hs] at hok
    simp only [Except.ok.injEq, Prod.mk.injEq] at hok
    rw [← hok.2]
  | cons t0 rest =>
    rw [hs] at hok
    cases hl : lookup? locs d with
    | none =>
      cases hc : lookup? caps d with
      | none => rw [hl, hc] at hok; exact Except.noConfusion hok
      | some cap => rw [hl, hc] at hok; exact Except.noConfusion hok
    | some loc0 =>
      cases hc : lookup? caps d with
      | none => rw [hl, hc] at hok; exact Except.noConfusion hok
      | some cap =>
        rw [hl, hc] at hok
        dsimp only at hok
        exact simDriver_seed dist speed addNoise cap g (t0 :: rest)
          ⟨loc0, dayStartTime t0.scheduled_pickup_time⟩ rng obs rng' hok

/-- The whole group loop reads the stream only at its state's seed. -/
theorem simGroups_congr (g1 g2 : RandStream) (s : ℕ) (h : ∀ i, g1 s i = g2 s i)
    (dist : DistFn) (speed : ℚ) (addNoise : Bool) (locs : LocMap)
    (caps : CapMap) (active : List (Trip × Assignment)) :
    ∀ (ds : List ℕ) (rng : RNGState), rng.seed = s →
      simGroups dist speed addNoise g1 locs caps active ds rng =
        simGroups dist speed addNoise g2 locs caps active ds rng := by
  intro ds
  induction ds with
  | nil => intro rng _; rfl
  | cons d ds ih =>
    intro rng hseed
    unfold simGroups
    rw [simGroup_congr g1 g2 s h dist speed addNoise locs caps d
      (groupOf active d) rng hseed]
    cases h1 : simGroup dist speed addNoise g2 locs caps d
        (groupOf active d) rng with
    | error e => rfl
    | ok v =>
      obtain ⟨o1, rng1⟩ := v
      dsimp only
      rw [ih rng1 (by
        rw [simGroup_seed dist speed addNoise g2 locs caps d
          (groupOf active d) rng o1 rng1 h1]
        exact hseed)]

/-- `simulate_strategy` ignores the inherited RNG state (it reseeds with
the configured `RANDOM_SEED` first) and reads the stream only at
`RANDOM_SEED` — never at the seed `run_simulation_comparison` was given. -/
theorem simulateStrategy_congr (g1 g2 : RandStream)
    (h : ∀ i, g1 RANDOM_SEED i = g2 RANDOM_SEED i) (dist : DistFn)
    (trips : List Trip) (assignments : List Assignment) (locs : LocMap)
    (caps : CapMap) (speed : ℚ) (addNoise : Bool) (amb1 amb2 : RNGState) :
    simulateStrategy g1 dist trips assignments locs caps speed addNoise amb1 =
      simulateStrategy g2 dist trips assignments locs caps speed addNoise amb2 := by
  unfold simulateStrategy
  cases assignments with
  | nil => rfl
  | cons a0 rest =>
    dsimp only
    rw [simGroups_congr g1 g2 RANDOM_SEED h dist speed addNoise locs caps
      ((mergeTrips trips (a0 :: rest)).filter (fun p => !p.1.is_cancelled))
      (groupKeys ((mergeTrips trips (a0 :: rest)).filter
        (fun p => !p.1.is_cancelled)))
      (setSeed RANDOM_SEED) rfl]

/-- C7 (amended): the comparison's output is independent of the inherited
global RNG state and depends on the random stream only through the seed
argument (driver-attribute draws) together with the fixed configured
`RANDOM_SEED` (the noise draws, because `simulate_strategy` reseeds with
the constant, not with the argument); hence two runs with equal inputs and
equal seed produce identical results. -/
theorem C7_output_determined_by_seed_and_config (g1 g2 : RandStream)
    (dist : DistFn) (trips : List Trip) (numDrivers seed : ℕ)
    (amb1 amb2 : RNGState)
    (hs : ∀ i, g1 seed i = g2 seed i)
    (hr : ∀ i, g1 RANDOM_SEED i = g2 RANDOM_SEED i) :
    runComparison g1 dist trips numDrivers seed amb1 =
      runComparison g2 dist trips numDrivers seed amb2 := by
  unfold runComparison
  dsimp only
  rw [genLocations_congr g1 g2 seed hs (List.range numDrivers) (setSeed seed) rfl]
  rw [genCapacities_congr g1 g2 seed hs (List.range numDrivers)
    (genLocations g2 (List.range numDrivers) (setSeed seed)).2
    (genLocations_seed g2 (List.range numDrivers) (setSeed seed))]
  cases assignFcfs trips (List.range numDrivers) with
  | error e => rfl
  | ok fcfsA =>
    dsimp only
    rw [simulateStrategy_congr g1 g2 hr dist trips fcfsA _ _ 25 true _ _]
    cases simulateStrategy g2 dist trips fcfsA
        (genLocations g2 (List.range numDrivers) (setSeed seed)).1
        (genCapacities g2 (List.range numDrivers)
          (genLocations g2 (List.range numDrivers) (setSeed seed)).2).1 25 true
        (genCapacities g2 (List.range numDrivers)
          (genLocations g2 (List.range numDrivers) (setSeed seed)).2).2 with
    | error e => rfl
    | ok r1 =>
      dsimp only
      cases assignNearest dist trips (List.range numDrivers)
          (genLocations g2 (List.range numDrivers) (setSeed seed)).1 with
      | error e => rfl
      | ok nearA =>
        dsimp only
        rw [simulateStrategy_congr g1 g2 hr dist trips nearA.1 _ _ 25 true _ _]
        cases simulateStrategy g2 dist trips nearA.1
            (genLocations g2 (List.range numDrivers) (setSeed seed)).1
            (genCapacities g2 (List.range numDrivers)
              (genLocations g2 (List.range numDrivers) (setSeed seed)).2).1 25 true
            (genCapacities g2 (List.range numDrivers)
              (genLocations g2 (List.range numDrivers) (setSeed seed)).2).2 with
        | error e => rfl
        | ok r2 =>
          dsimp only
          cases assignCapacityAware trips (List.range numDrivers)
              (genCapacities g2 (List.range numDrivers)
                (genLocations g2 (List.range numDrivers) (setSeed seed)).2).1 with
          | error e => rfl
          | ok capA =>
            dsimp only
            rw [simulateStrategy_congr g1 g2 hr dist trips capA _ _ 25 true _ _]

/-- Witness instantiating C7's amended theorem: two different streams that
agree on the argument seed 43 and on the configured `RANDOM_SEED`, run with
different inherited RNG states, give identical comparison outputs. -/
theorem C7_output_determined_by_seed_and_config_witness :
    runComparison zeroStream zeroDist [tripBasic] 1 43 ⟨0, 0⟩ =
      runComparison offSeedStream zeroDist [tripBasic] 1 43 ⟨99, 7⟩ := by
  refine C7_output_determined_by_seed_and_config zeroStream offSeedStream
    zeroDist [tripBasic] 1 43 ⟨0, 0⟩ ⟨99, 7⟩ ?_ ?_
  · intro i
    norm_num [zeroStream, offSeedStream, RANDOM_SEED]
  · intro i
    norm_num [zeroStream, offSeedStream, RANDOM_SEED]

/-- Attribute generation on a stream that vanishes at seed 43. -/
theorem genAttributes_eval (g : RandStream) (h0 : g 43 0 = 0)
    (h1 : g 43 1 = 0) (h2 : g 43 2 = 0) :
    genLocations g [0] (setSeed 43) =
      ([(0, (166 / 5, -1123 / 10))], ⟨43, 2⟩) ∧
    genCapacities g [0] (⟨43, 2⟩ : RNGState) =
      ([(0, 2)], ⟨43, 3⟩) := by
  constructor
  · norm_num [genLocations, drawUniform, setSeed, h0, h1, Prod.mk.injEq,
      List.cons.injEq, RNGState.mk.injEq]
  · norm_num [genCapacities, drawChoice, h2, floorQ, Prod.mk.injEq,
      List.cons.injEq, RNGState.mk.injEq, List.getD]

/-- One simulated strategy under the all-zero stream: noise factors 1. -/
theorem simulate_eval_zeroStream (name : String) (amb : RNGState) :
    simulateStrategy zeroStream constDist25 [tripBasic] [⟨2, 0, name⟩]
      [(0, (166 / 5, -1123 / 10))] [(0, 2)] 25 true amb =
      .ok ⟨name, 1, 1, 30, 20, 0, 1 / 2⟩ := by
  have hstep : tripStep constDist25 25 true 2 zeroStream
      ⟨(166 / 5, -1123 / 10), dayStartTime tripBasic.scheduled_pickup_time⟩
      (setSeed RANDOM_SEED) tripBasic =
      .ok (⟨30, 0, 0, 1 / 2, 20⟩, ⟨(34, -113), 620⟩, ⟨42, 2⟩) := by
    rw [tripStep_some_eq constDist25 25 true 2 zeroStream
      ⟨(166 / 5, -1123 / 10), dayStartTime tripBasic.scheduled_pickup_time⟩
      (setSeed RANDOM_SEED) tripBasic 20 (by rfl)]
    dsimp only [constDist25, zeroStream, tripBasic, deadheadMinutes,
      drawNormal, setSeed, RANDOM_SEED]
    norm_num [timeDate, floorQ_eq_floor, dayStartTime, sixAMOf,
      TripObs.mk.injEq, DriverSimState.mk.injEq, Prod.mk.injEq]
  have hsd : simDriver constDist25 25 true 2 zeroStream
      ⟨(166 / 5, -1123 / 10), dayStartTime tripBasic.scheduled_pickup_time⟩
      (setSeed RANDOM_SEED) [tripBasic] =
      .ok ([⟨30, 0, 0, 1 / 2, 20⟩], ⟨42, 2⟩) := by
    unfold simDriver
    rw [hstep]
    rfl
  have hsg : simGroup constDist25 25 true zeroStream
      [(0, (166 / 5, -1123 / 10))] [(0, 2)] 0 [tripBasic]
      (setSeed RANDOM_SEED) = .ok ([⟨30, 0, 0, 1 / 2, 20⟩], ⟨42, 2⟩) := by
    unfold simGroup
    exact hsd
  have hsgs : simGroups constDist25 25 true zeroStream
      [(0, (166 / 5, -1123 / 10))] [(0, 2)] [(tripBasic, ⟨2, 0, name⟩)] [0]
      (setSeed RANDOM_SEED) = .ok ([⟨30, 0, 0, 1 / 2, 20⟩], ⟨42, 2⟩) := by
    unfold simGroups
    have hgo : groupOf [(tripBasic, ⟨2, 0, name⟩)] 0 = [tripBasic] := rfl
    rw [hgo, hsg]
    rfl
  unfold simulateStrategy
  dsimp only
  have hactive : (mergeTrips [tripBasic] [⟨2, 0, name⟩]).filter
      (fun p => !p.1.is_cancelled) = [(tripBasic, ⟨2, 0, name⟩)] := rfl
  rw [hactive]
  have hgk : groupKeys [(tripBasic, ⟨2, 0, name⟩)] = [0] := rfl
  rw [hgk, hsgs]
  dsimp only
  norm_num [mean, SimulationResult.mk.injEq]

/-- One simulated strategy under the stream that is 10 at `RANDOM_SEED`:
the deadhead factor becomes 2, the duration factor 3/2, and the trip goes
out 60 minutes late. -/
theorem simulate_eval_noisyStream (name : String) (amb : RNGState) :
    simulateStrategy noisyStream constDist25 [tripBasic] [⟨2, 0, name⟩]
      [(0, (166 / 5, -1123 / 10))] [(0, 2)] 25 true amb =
      .ok ⟨name, 1, 0, 30, 30, 0, 1 / 2⟩ := by
  have hstep : tripStep constDist25 25 true 2 noisyStream
      ⟨(166 / 5, -1123 / 10), dayStartTime tripBasic.scheduled_pickup_time⟩
      (setSeed RANDOM_SEED) tripBasic =
      .ok (⟨30, 0, 60, 1 / 2, 30⟩, ⟨(34, -113), 690⟩, ⟨42, 2⟩) := by
    rw [tripStep_some_eq constDist25 25 true 2 noisyStream
      ⟨(166 / 5, -1123 / 10), dayStartTime tripBasic.scheduled_pickup_time⟩
      (setSeed RANDOM_SEED) tripBasic 20 (by rfl)]
    dsimp only [constDist25, noisyStream, tripBasic, deadheadMinutes,
      drawNormal, setSeed, RANDOM_SEED]
    norm_num [timeDate, floorQ_eq_floor, dayStartTime, sixAMOf,
      TripObs.mk.injEq, DriverSimState.mk.injEq, Prod.mk.injEq]
  have hsd : simDriver constDist25 25 true 2 noisyStream
      ⟨(166 / 5, -1123 / 10), dayStartTime tripBasic.scheduled_pickup_time⟩
      (setSeed RANDOM_SEED) [tripBasic] =
      .ok ([⟨30, 0, 60, 1 / 2, 30⟩], ⟨42, 2⟩) := by
    unfold simDriver
    rw [hstep]
    rfl
  have hsg : simGroup constDist25 25 true noisyStream
      [(0, (166 / 5, -1123 / 10))] [(0, 2)] 0 [tripBasic]
      (setSeed RANDOM_SEED) = .ok ([⟨30, 0, 60, 1 / 2, 30⟩], ⟨42, 2⟩) := by
    unfold simGroup
    exact hsd
  have hsgs : simGroups constDist25 25 true noisyStream
      [(0, (166 / 5, -1123 / 10))] [(0, 2)] [(tripBasic, ⟨2, 0, name⟩)] [0]
      (setSeed RANDOM_SEED) = .ok ([⟨30, 0, 60, 1 / 2, 30⟩], ⟨42, 2⟩) := by
    unfold simGroups
    have hgo : groupOf [(tripBasic, ⟨2, 0, name⟩)] 0 = [tripBasic] := rfl
    rw [hgo, hsg]
    rfl
  unfold simulateStrategy
  dsimp only
  have hactive : (mergeTrips [tripBasic] [⟨2, 0, name⟩]).filter
      (fun p => !p.1.is_cancelled) = [(tripBasic, ⟨2, 0, name⟩)] := rfl
  rw [hactive]
  have hgk : groupKeys [(tripBasic, ⟨2, 0, name⟩)] = [0] := rfl
  rw [hgk, hsgs]
  dsimp only
  norm_num [mean, SimulationResult.mk.injEq]

/-- C7 counterexample: the per-trip noise draws are not controlled by the
seed argument of `run_simulation_comparison`.  Two streams that agree on
every value of the argument seed (43) still produce different outputs,
because `simulate_strategy` reseeds with the configured constant
`RANDOM_SEED` (42) and draws its noise there. -/
theorem C7_counterexample_noise_reads_config_seed :
    ¬ ∀ (g1 g2 : RandStream) (dist : DistFn) (trips : List Trip)
        (numDrivers seed : ℕ) (amb : RNGState),
        (∀ i, g1 seed i = g2 seed i) →
        runComparison g1 dist trips numDrivers seed amb =
          runComparison g2 dist trips numDrivers seed amb := by
  intro hcl
  have hagree : ∀ i, zeroStream 43 i = noisyStream 43 i := by
    intro i
    norm_num [zeroStream, noisyStream, RANDOM_SEED]
  have h := hcl zeroStream noisyStream constDist25 [tripBasic] 1 43 ⟨43, 0⟩
    hagree
  have hga0 := genAttributes_eval zeroStream rfl rfl rfl
  have hga1 := genAttributes_eval noisyStream (by norm_num [noisyStream, RANDOM_SEED])
    (by norm_num [noisyStream, RANDOM_SEED]) (by norm_num [noisyStream, RANDOM_SEED])
  have e0 : runComparison zeroStream constDist25 [tripBasic] 1 43 ⟨43, 0⟩ =
      .ok [⟨"FCFS", 1, 1, 30, 20, 0, 1 / 2⟩,
           ⟨"Nearest", 1, 1, 30, 20, 0, 1 / 2⟩,
           ⟨"Capacity-Aware", 1, 1, 30, 20, 0, 1 / 2⟩] := by
    unfold runComparison
    dsimp only
    have hr0 : List.range 1 = [0] := rfl
    rw [hr0, hga0.1]
    dsimp only
    rw [hga0.2]
    dsimp only
    have ha1 : assignFcfs [tripBasic] [0] = .ok [⟨2, 0, "FCFS"⟩] := rfl
    rw [ha1]
    dsimp only
    rw [simulate_eval_zeroStream "FCFS" ⟨43, 3⟩]
    dsimp only
    have ha2 : assignNearest constDist25 [tripBasic] [0]
        [(0, (166 / 5, -1123 / 10))] =
        .ok ([⟨2, 0, "Nearest"⟩], [(0, (34, -113))]) := rfl
    rw [ha2]
    dsimp only
    rw [simulate_eval_zeroStream "Nearest" ⟨43, 3⟩]
    dsimp only
    have ha3 : assignCapacityAware [tripBasic] [0] [(0, 2)] =
        .ok [⟨2, 0, "Capacity-Aware"⟩] := rfl
    rw [ha3]
    dsimp only
    rw [simulate_eval_zeroStream "Capacity-Aware" ⟨43, 3⟩]
  have e1 : runComparison noisyStream constDist25 [tripBasic] 1 43 ⟨43, 0⟩ =
      .ok [⟨"FCFS", 1, 0, 30, 30, 0, 1 / 2⟩,
           ⟨"Nearest", 1, 0, 30, 30, 0, 1 / 2⟩,
           ⟨"Capacity-Aware", 1, 0, 30, 30, 0, 1 / 2⟩] := by
    unfold runComparison
    dsimp only
    have hr0 : List.range 1 = [0] := rfl
    rw [hr0, hga1.1]
    dsimp only
    rw [hga1.2]
    dsimp only
    have ha1 : assignFcfs [tripBasic] [0] = .ok [⟨2, 0, "FCFS"⟩] := rfl
    rw [ha1]
    dsimp only
    rw [simulate_eval_noisyStream "FCFS" ⟨43, 3⟩]
    dsimp only
    have ha2 : assignNearest constDist25 [tripBasic] [0]
        [(0, (166 / 5, -1123 / 10))] =
        .ok ([⟨2, 0, "Nearest"⟩], [(0, (34, -113))]) := rfl
    rw [ha2]
    dsimp only
    rw [simulate_eval_noisyStream "Nearest" ⟨43, 3⟩]
    dsimp only
    have ha3 : assignCapacityAware [tripBasic] [0] [(0, 2)] =
        .ok [⟨2, 0, "Capacity-Aware"⟩] := rfl
    rw [ha3]
    dsimp only
    rw [simulate_eval_noisyStream "Capacity-Aware" ⟨43, 3⟩]
  rw [e0, e1] at h
  norm_num [Except.ok.injEq, List.cons.injEq, SimulationResult.mk.injEq] at h

end RoutingSim
